import Mathlib

/-!
Verification of the ourportfolios financial-comparison core.

This file gives a shallow embedding, in Lean 4, of the pure logic of the
ourportfolios repository (display formatters, growth-rate computation, the
cached ratio-transformation wrapper, the historical time-series aligner, the
industry best-performer ranking, and the framework metric-name resolution),
together with theorems settling the frozen claims about that logic.

Modelling conventions:
* Python floats are modelled as rationals; float NaN and Python None are
  modelled by Option none (the code treats both as missing via pd.isna /
  an explicit None check).  Values whose float conversion raises are given
  their own constructor where the distinction matters.
* pandas DataFrames are modelled as lists of rows.  A categorized-ratio
  table row carries an integer Year, an integer Quarter (meaningful when
  the table has a Quarter column) and named metric cells.
* Python dicts keyed by strings are modelled as association lists in
  insertion order; an overwriting store keeps the later binding.
* datetimes are modelled as natural-number minutes.
-/

/-! ## Character and string helpers (structural, kernel-reducible) -/

/-- Lower-case every character of a string (models str.lower). -/
def strLower (s : String) : String :=
  String.mk (s.data.map Char.toLower)

/-- Drop leading whitespace from a character list. -/
def dropLeadingWs : List Char → List Char
  | [] => []
  | c :: cs => if c.isWhitespace then dropLeadingWs cs else c :: cs

/-- Strip leading and trailing whitespace (models str.strip). -/
def strStrip (s : String) : String :=
  String.mk ((dropLeadingWs (dropLeadingWs s.data.reverse).reverse))

/-- Decide whether the first character list occurs contiguously inside the
second (models the Python substring test a in b). -/
def charsInfix (a b : List Char) : Bool :=
  match b with
  | [] => a.isEmpty
  | _ :: bs => a.isPrefixOf b || charsInfix a bs

/-- Python substring test a in b on strings. -/
def strContains (b a : String) : Bool :=
  charsInfix a.data b.data

/-- Split a character list on runs of whitespace, dropping empty pieces
(models str.split with no argument). -/
def splitWsChars (cur : List Char) (acc : List (List Char)) : List Char → List (List Char)
  | [] => if cur.isEmpty then acc.reverse else (cur.reverse :: acc).reverse
  | c :: cs =>
    if c.isWhitespace then
      if cur.isEmpty then splitWsChars [] acc cs
      else splitWsChars [] (cur.reverse :: acc) cs
    else splitWsChars (c :: cur) acc cs

/-- Split a string on whitespace runs (models str.split with no argument). -/
def pySplit (s : String) : List String :=
  (splitWsChars [] [] s.data).map String.mk

/-- Decide whether every character is a decimal digit and the list is
nonempty (models str.isdigit for ASCII strings). -/
def allDigits (l : List Char) : Bool :=
  !l.isEmpty && l.all Char.isDigit

/-- Parse a nonempty all-digit character list as a natural number. -/
def parseNatChars (l : List Char) : Option ℕ :=
  if allDigits l then
    some (l.foldl (fun acc c => acc * 10 + (c.toNat - 48)) 0)
  else none

/-- Parse an optionally minus-signed digit string as an integer (models the
successful cases of the Python int constructor on a string). -/
def parseIntStr (s : String) : Option ℤ :=
  match s.data with
  | '-' :: rest => (parseNatChars rest).map (fun n => -(n : ℤ))
  | l => (parseNatChars l).map (fun n => (n : ℤ))

/-- Decimal digit rendering of a natural number. -/
def natStr (n : ℕ) : String :=
  String.mk (Nat.toDigits 10 n)

/-- Decimal rendering of an integer, with a sign for negative values
(models the Python str of an int). -/
def intStr (i : ℤ) : String :=
  if i < 0 then "-" ++ natStr i.natAbs else natStr i.natAbs

/-! ## Fixed-point decimal rendering

Python renders floats with a format spec like .2f, which rounds to the
requested number of decimal places using round-half-to-even.  The embedding
renders a rational exactly; this agrees with the source whenever the float
value is exactly representable, and the claims only exercise such values. -/

/-- Round a rational to the nearest integer, ties to the even integer
(the rounding used by fixed-point float formatting). -/
def roundHalfEven (x : ℚ) : ℤ :=
  if x - ⌊x⌋ < 1/2 then ⌊x⌋
  else if 1/2 < x - ⌊x⌋ then ⌊x⌋ + 1
  else if (⌊x⌋ : ℤ) % 2 = 0 then ⌊x⌋ else ⌊x⌋ + 1

/-- Render a nonnegative scaled integer n as a decimal with d places:
n = 150, d = 2 renders as 1.50. -/
def fmtScaled (n : ℤ) (d : ℕ) : String :=
  let m := n.toNat
  let ip := m / 10 ^ d
  let fp := m % 10 ^ d
  if d = 0 then natStr ip
  else
    let fpDigits := Nat.toDigits 10 fp
    natStr ip ++ "." ++ String.mk (List.replicate (d - fpDigits.length) '0' ++ fpDigits)

/-- Fixed-point rendering of a nonnegative rational with d decimal places. -/
def fmtFixedNonneg (q : ℚ) (d : ℕ) : String :=
  fmtScaled (roundHalfEven (q * 10 ^ d)) d

/-- Fixed-point rendering of a rational with d decimal places, sign in
front (models the Python format spec .df applied to a float). -/
def pyFormatFixed (q : ℚ) (d : ℕ) : String :=
  if q < 0 then "-" ++ fmtFixedNonneg (-q) d else fmtFixedNonneg q d

/-! ## Formatters (src/ourportfolios/preprocessing/formatters.py) -/

/-- Value passed to a formatter: a numeric value, float NaN, Python None,
or a value whose float conversion raises. -/
inductive PyNum where
  | num (q : ℚ)
  | nan
  | null
  | notNumeric
deriving DecidableEq, Repr

/-- Embedding of format_large_number: suffix thresholds at 1e12 (T), 1e9 (B)
and 1e6 (M) on the absolute value, sign re-attached at the end; None, NaN and
unconvertible inputs give the string N/A. -/
def format_large_number (value : PyNum) (decimals : ℕ) : String :=
  match value with
  | .null => "N/A"
  | .nan => "N/A"
  | .notNumeric => "N/A"
  | .num q =>
    (if q < 0 then "-" else "") ++
      (if |q| ≥ 1000000000000 then fmtFixedNonneg (|q| / 1000000000000) decimals ++ " T"
       else if |q| ≥ 1000000000 then fmtFixedNonneg (|q| / 1000000000) decimals ++ " B"
       else if |q| ≥ 1000000 then fmtFixedNonneg (|q| / 1000000) decimals ++ " M"
       else fmtFixedNonneg (|q|) decimals)

/-- Embedding of format_percentage: fixed-point rendering with a percent
sign; None, NaN and unconvertible inputs give the string N/A. -/
def format_percentage (value : PyNum) (decimals : ℕ) : String :=
  match value with
  | .null => "N/A"
  | .nan => "N/A"
  | .notNumeric => "N/A"
  | .num q => pyFormatFixed q decimals ++ "%"

/-! ## Industry best performers
(src/ourportfolios/pages/compare/state.py, industry_best_performers and
its helper get_latest_values_by_ticker) -/

/-- One record of a per-metric historical series: the period label plus the
per-ticker values present in that period. -/
structure PeriodRec where
  period : String
  vals : List (String × Option ℚ)
deriving DecidableEq, Repr

/-- Historical data: metric name to chronologically ascending series. -/
abbrev HistoricalData := List (String × List PeriodRec)

/-- Metrics where lower is better, verbatim from industry_best_performers in
src/ourportfolios/pages/compare/state.py. -/
def lower_is_better : List String :=
  ["P/E", "P/B", "P/S", "Debt/Equity", "Days Sales Outstanding",
   "Days Inventory Outstanding"]

/-- Direction table of higher-is-better metrics from the superseded variant
src/ourportfolios/state/comparison_state.py; the spec's two-sided direction
table is taken from this list, the current page code has no such list. -/
def higher_better : List String :=
  ["ROE (%)", "ROA (%)", "ROIC (%)", "Gross Profit Margin (%)",
   "Net Profit Margin (%)", "EBIT Margin (%)", "EPS (VND)", "BVPS (VND)",
   "Dividends paid", "Free Cash Flow", "Current Ratio", "Quick Ratio",
   "Cash Ratio", "Interest Coverage", "Asset Turnover",
   "Fixed Asset Turnover", "Inventory Turnover", "Revenue YoY",
   "Earnings YoY", "Free Cash Flow YoY", "Book Value YoY"]

/-- Embedding of get_latest_values_by_ticker, read back pointwise: the value
recorded for a ticker and metric is the ticker's entry in the last record of
that metric's series, provided the ticker is in the compare list. -/
def getLatestValue (historical : HistoricalData) (compare : List String)
    (ticker metric : String) : Option ℚ :=
  match List.lookup metric historical with
  | none => none
  | some mdata =>
    match mdata.getLast? with
    | none => none
    | some latest =>
      if ticker ∈ compare then
        match List.lookup ticker latest.vals with
        | some v => v
        | none => none
      else none

/-- The values list built by industry_best_performers for one industry and
one metric: value-ticker pairs for the stocks with a non-null numeric latest
value, in stock order. -/
def bestCandidates (historical : HistoricalData) (compare stocks : List String)
    (metric : String) : List (ℚ × String) :=
  stocks.filterMap fun t =>
    (getLatestValue historical compare t metric).map fun v => (v, t)

/-- Python min over value-ticker pairs keyed on the value: the first pair
with the minimal value. -/
def pyMinFirst (l : List (ℚ × String)) : Option (ℚ × String) :=
  match l with
  | [] => none
  | x :: xs => some (xs.foldl (fun acc y => if y.1 < acc.1 then y else acc) x)

/-- Python max over value-ticker pairs keyed on the value: the first pair
with the maximal value. -/
def pyMaxFirst (l : List (ℚ × String)) : Option (ℚ × String) :=
  match l with
  | [] => none
  | x :: xs => some (xs.foldl (fun acc y => if acc.1 < y.1 then y else acc) x)

/-- Embedding of one cell of industry_best_performers: among the stocks of
one industry, the winning ticker for one metric (none when the metric key is
not set, which in the source is exactly the no-values case). -/
def industry_best_performer (historical : HistoricalData)
    (compare stocks : List String) (metric : String) : Option String :=
  if metric ∈ lower_is_better then
    (pyMinFirst (bestCandidates historical compare stocks metric)).map Prod.snd
  else
    (pyMaxFirst (bestCandidates historical compare stocks metric)).map Prod.snd

/-! ## Framework metric-name resolution
(apply_framework_filter in src/ourportfolios/pages/compare/state.py) -/

/-- Two-way case-insensitive substring test after stripping, verbatim from
the matching loop of apply_framework_filter: the normalized framework name
inside the normalized database name, or the reverse. -/
def frameworkNameMatches (fwName dbMetric : String) : Bool :=
  strContains (strLower (strStrip dbMetric)) (strLower (strStrip fwName)) ||
  strContains (strLower (strStrip fwName)) (strLower (strStrip dbMetric))

/-- Embedding of the per-name inner loops of apply_framework_filter: for a
single framework metric name, scan every database category in order and take
the first substring-matching metric of each category (the break leaves the
inner loop only), accumulating the matches. -/
def resolveFrameworkMetric (allMetrics : List (String × List String))
    (fwName : String) : List String :=
  allMetrics.foldl (fun acc cat =>
    match cat.2.find? (fun dbMetric => frameworkNameMatches fwName dbMetric) with
    | some m => acc ++ [m]
    | none => acc) []

/-- Static framework-name to database-column mapping, verbatim from the
computed var framework_metric_name_to_db_column of the superseded variant
src/ourportfolios/state/comparison_state.py; this is the only static
name-mapping table in the repository and the table the claim says
apply_framework_filter consults first. -/
def framework_metric_name_to_db_column : List (String × String) :=
  [("Earnings", "EPS (VND)"), ("Book Value", "BVPS (VND)"),
   ("Free Cash Flow", "Free Cash Flow"), ("Dividend", "Dividends paid"),
   ("ROE", "ROE (%)"), ("ROIC", "ROIC (%)"),
   ("Net Margin", "Net Profit Margin (%)"),
   ("Gross Margin", "Gross Profit Margin (%)"),
   ("Operating Margin", "Operating Profit/Loss"),
   ("EBITDA Margin", "EBITDA (Bn. VND)"), ("ROA", "ROA (%)"),
   ("P/E", "P/E"), ("P/B", "P/B"), ("P/S", "P/S"),
   ("P/Cash Flow", "P/Cash Flow"), ("EV/EBITDA", "EV/EBITDA"),
   ("Debt/Equity", "Debt/Equity"), ("Current Ratio", "Current Ratio"),
   ("Quick Ratio", "Quick Ratio"), ("Interest Coverage", "Interest Coverage"),
   ("Cash Ratio", "Cash Ratio"), ("Asset Turnover", "Asset Turnover"),
   ("Revenues YoY", "Revenue YoY"), ("Earnings YoY", "Earnings YoY"),
   ("Free Cash Flow YoY", "Free Cash Flow YoY"),
   ("Book Value YoY", "Book Value YoY")]

/-- Resolution procedure as the claim words it: exact lookup in the static
name-mapping table first, falling back to the substring scan.  Modelled from
the claim for comparison; the page code has no exact-lookup stage. -/
def claimResolveFrameworkMetric (allMetrics : List (String × List String))
    (fwName : String) : List String :=
  match List.lookup fwName framework_metric_name_to_db_column with
  | some col => [col]
  | none => resolveFrameworkMetric allMetrics fwName

/-! ## Transformed dataset, failure skeleton and TTL cache
(src/ourportfolios/preprocessing/financial_statements.py,
get_transformed_dataframes) -/

/-- One output record: column name to nullable numeric cell. -/
abbrev DRec := List (String × Option ℚ)

/-- Result bundle of get_transformed_dataframes.  A missing error key is
modelled as none. -/
structure TransformedDataset where
  transformed_income_statement : List DRec
  transformed_balance_sheet : List DRec
  transformed_cash_flow : List DRec
  categorized_ratios : List (String × List DRec)
  error : Option String
deriving DecidableEq, Repr

/-- The six fixed category keys, in source order. -/
def category_keys : List String :=
  ["Per Share Value", "Growth Rate", "Profitability", "Valuation",
   "Leverage & Liquidity", "Efficiency"]

/-- The all-empty categorized-ratio skeleton. -/
def emptyCategorized : List (String × List DRec) :=
  category_keys.map fun k => (k, [])

/-- The error-carrying empty dataset returned on failure. -/
def errorDataset (msg : String) : TransformedDataset :=
  ⟨[], [], [], emptyCategorized, some msg⟩

/-- Message of the empty-ratio-data early return. -/
def noRatioDataMsg : String :=
  "No ratio data found in database. Data may need to be loaded via ourscheduler."

/-- The four fetched statement frames, as record lists. -/
structure FetchedFrames where
  ratios_df : List DRec
  income_df : List DRec
  balance_df : List DRec
  cashflow_df : List DRec
deriving DecidableEq, Repr

/-- Embedding of the try-block of get_transformed_dataframes: a failed
fetch (the awaited gather raising) or a failing categorization is caught
and produces the error skeleton; empty ratio data produces the skeleton
with the fixed message; otherwise the categorized result is returned with
no error key.  The categorization step is a parameter so that the theorems
quantify over every possible raising transformation. -/
def get_transformed_dataframes (fetch : Except String FetchedFrames)
    (categorize : FetchedFrames → Except String (List (String × List DRec))) :
    TransformedDataset :=
  match fetch with
  | .error e => errorDataset e
  | .ok f =>
    if f.ratios_df.isEmpty then errorDataset noRatioDataMsg
    else
      match categorize f with
      | .error e => errorDataset e
      | .ok cats => ⟨f.income_df, f.balance_df, f.cashflow_df, cats, none⟩

/-- Module cache: key to dataset and store time (minutes). -/
abbrev DSCache := List (String × TransformedDataset × ℕ)

/-- Cache TTL in minutes. -/
def cache_duration : ℕ := 30

/-- Python dict store: one entry per key, later store replaces. -/
def insertCache (key : String) (r : TransformedDataset) (now : ℕ)
    (cache : DSCache) : DSCache :=
  (key, r, now) :: cache.filter fun e => e.1 ≠ key

/-- The fetch-and-store path of get_transformed_dataframes (the body after
a cache miss): only the fully successful branch stores into the cache; the
third component records that the underlying fetchers were invoked. -/
def get_transformed_fetch (cache : DSCache) (now : ℕ) (ticker period : String)
    (fetch : Except String FetchedFrames)
    (categorize : FetchedFrames → Except String (List (String × List DRec))) :
    TransformedDataset × DSCache × Bool :=
  match fetch with
  | .error e => (errorDataset e, cache, true)
  | .ok f =>
    if f.ratios_df.isEmpty then (errorDataset noRatioDataMsg, cache, true)
    else
      match categorize f with
      | .error e => (errorDataset e, cache, true)
      | .ok cats =>
        (⟨f.income_df, f.balance_df, f.cashflow_df, cats, none⟩,
         insertCache (ticker ++ "_" ++ period)
           ⟨f.income_df, f.balance_df, f.cashflow_df, cats, none⟩ now cache,
         true)

/-- Embedding of the cached entry point: a cache entry younger than the TTL
is returned as-is without fetching; otherwise the fetch path runs. -/
def get_transformed_cached (cache : DSCache) (now : ℕ) (ticker period : String)
    (fetch : Except String FetchedFrames)
    (categorize : FetchedFrames → Except String (List (String × List DRec))) :
    TransformedDataset × DSCache × Bool :=
  match List.lookup (ticker ++ "_" ++ period) cache with
  | some (data, t) =>
    if now - t < cache_duration then (data, cache, false)
    else get_transformed_fetch cache now ticker period fetch categorize
  | none => get_transformed_fetch cache now ticker period fetch categorize

/-! ## Growth-rate computation
(_compute_growth_rates in src/ourportfolios/preprocessing/financial_statements.py) -/

/-- A wide DataFrame: named columns and rows of nullable numeric cells
(year and quarter cells included among the columns, as in the source). -/
structure GTable where
  cols : List String
  rows : List (List (Option ℚ))
deriving DecidableEq, Repr

/-- Index of a column name. -/
def colIndex (cols : List String) (c : String) : Option ℕ :=
  match cols with
  | [] => none
  | a :: as => if a = c then some 0 else (colIndex as c).map (· + 1)

/-- Cell of a row under a column name (missing column reads as null). -/
def cellAt (cols : List String) (row : List (Option ℚ)) (c : String) : Option ℚ :=
  match colIndex cols c with
  | some i => row.getD i none
  | none => none

/-- Year column choice of the source: lowercase if present, else capitalized. -/
def yearColOf (cols : List String) : String :=
  if "year" ∈ cols then "year" else "Year"

/-- Quarter column choice of the source. -/
def quarterColOf (cols : List String) : String :=
  if "quarter" ∈ cols then "quarter" else "Quarter"

/-- Strict cell comparison for ascending sorts; null cells sort last, as
pandas places NaN at the end. -/
def cellLt (a b : Option ℚ) : Bool :=
  match a, b with
  | none, _ => false
  | some _, none => true
  | some x, some y => x < y

/-- Stable insertion into an ascending-sorted list: the new element goes
before the first position that is not strictly below it. -/
def insertAsc {α : Type} (lt : α → α → Bool) (x : α) : List α → List α
  | [] => [x]
  | y :: ys => if lt y x then y :: insertAsc lt x ys else x :: y :: ys

/-- Stable ascending insertion sort (models the stable pandas sorts used in
the source; period keys are distinct in every claim input). -/
def sortAsc {α : Type} (lt : α → α → Bool) : List α → List α
  | [] => []
  | x :: xs => insertAsc lt x (sortAsc lt xs)

/-- Row comparison of the growth sort: by year cell, then by quarter cell
when quarterly. -/
def growthRowLt (cols : List String) (useQuarter : Bool)
    (r1 r2 : List (Option ℚ)) : Bool :=
  cellLt (cellAt cols r1 (yearColOf cols)) (cellAt cols r2 (yearColOf cols)) ||
    (cellAt cols r1 (yearColOf cols) == cellAt cols r2 (yearColOf cols) &&
      useQuarter &&
      cellLt (cellAt cols r1 (quarterColOf cols)) (cellAt cols r2 (quarterColOf cols)))

/-- Growth metric names and their source metrics, verbatim from the source. -/
def growth_mappings : List (String × String) :=
  [("Revenue YoY", "Net Sales"), ("Earnings YoY", "EPS (VND)"),
   ("Free Cash Flow YoY", "Free Cash Flow"), ("Dividends YoY", "Dividends paid"),
   ("Book Value YoY", "BVPS (VND)")]

/-- Forward fill of nulls (the pandas pad fill that the default pct_change
performs before differencing). -/
def padForward (carry : Option ℚ) : List (Option ℚ) → List (Option ℚ)
  | [] => []
  | none :: rest => carry :: padForward carry rest
  | some v :: rest => some v :: padForward (some v) rest

/-- One pct-change step.  A zero previous value gives an IEEE infinity or
NaN in the source floats; it is modelled as null here and every theorem
below keeps zero denominators out by hypothesis. -/
def pctStep (prev cur : Option ℚ) : Option ℚ :=
  match prev, cur with
  | some a, some b => if a = 0 then none else some ((b - a) / a)
  | _, _ => none

/-- Embedding of Series.pct_change with its default pad fill: forward-fill,
then the relative change of each element against its predecessor; the first
element has none. -/
def pct_change_pad (xs : List (Option ℚ)) : List (Option ℚ) :=
  List.zipWith pctStep (none :: padForward none xs) (padForward none xs)

/-- The growth columns: for each mapping whose source metric is a column,
the pct-change of that column over the sorted rows, times 100. -/
def growthCols (cols : List String) (sorted : List (List (Option ℚ))) :
    List (String × List (Option ℚ)) :=
  (growth_mappings.filter fun gm => gm.2 ∈ cols).map fun gm =>
    (gm.1, (pct_change_pad (sorted.map fun row => cellAt cols row gm.2)).map
      fun c => c.map fun v => v * 100)

/-- The unfiltered growth records: Year (and Quarter when quarterly)
followed by the growth cells, one record per sorted row. -/
def growthRecs (df : GTable) (useQuarter : Bool) : List DRec :=
  (List.range (sortAsc (growthRowLt df.cols useQuarter) df.rows).length).map fun i =>
    (("Year", cellAt df.cols
        ((sortAsc (growthRowLt df.cols useQuarter) df.rows).getD i []) (yearColOf df.cols)) ::
      (if useQuarter then
        [("Quarter", cellAt df.cols
          ((sortAsc (growthRowLt df.cols useQuarter) df.rows).getD i []) (quarterColOf df.cols))]
      else []))
    ++ (growthCols df.cols (sortAsc (growthRowLt df.cols useQuarter) df.rows)).map
        fun gc => (gc.1, gc.2.getD i none)

/-- The row mask of the source: keep a record when at least one of its
non-time cells is non-null. -/
def growthRowKeep (r : DRec) : Bool :=
  (r.filter fun kv => !((["Year", "Quarter"] : List String).contains kv.1)).any
    fun kv => kv.2.isSome

/-- The masking step: applied only when at least one growth column exists. -/
def growthFiltered (df : GTable) (useQuarter : Bool) : List DRec :=
  if (growth_mappings.filter fun gm => gm.2 ∈ df.cols).isEmpty then
    growthRecs df useQuarter
  else
    (growthRecs df useQuarter).filter growthRowKeep

/-- Embedding of _compute_growth_rates: empty input or a missing year
column give an empty result; otherwise sort by year (and quarter when the
requested period is quarterly and a quarter column exists), compute the
growth columns, and drop rows whose growth cells are all null. -/
def _compute_growth_rates (df : GTable) (period : String) : List DRec :=
  if df.rows.isEmpty then []
  else if yearColOf df.cols ∈ df.cols then
    growthFiltered df (period == "quarter" && (quarterColOf df.cols ∈ df.cols : Bool))
  else []

/-! ## Historical time-series aligner
(_extract_historical_data and fetch_historical_data in
src/ourportfolios/pages/compare/state.py) -/

/-- One record of a categorized-ratio table as consumed by the aligner: an
integer Year, an integer Quarter (meaningful when the table has a Quarter
column) and the metric cells. -/
structure CRow where
  year : ℤ
  quarter : ℤ
  cells : List (String × Option ℚ)
deriving DecidableEq, Repr

/-- A category table: Quarter-column presence plus the rows. -/
structure CTable where
  hasQuarter : Bool
  rows : List CRow
deriving DecidableEq, Repr

/-- Number of periods kept per ticker. -/
def maxPeriodsOf (timePeriod : String) : ℕ :=
  if timePeriod == "quarter" then 8 else 4

/-- Comparison placing the row with the larger (year, quarter) key first
(the descending sort of the source). -/
def crowDescLt (useQuarter : Bool) (a b : CRow) : Bool :=
  if useQuarter then
    b.year < a.year || (b.year == a.year && b.quarter < a.quarter)
  else b.year < a.year

/-- Period label of a row: Qn YYYY for quarterly data, YYYY for yearly. -/
def rowLabel (timePeriod : String) (r : CRow) : String :=
  if timePeriod == "quarter" then "Q" ++ intStr r.quarter ++ " " ++ intStr r.year
  else intStr r.year

/-- Per-category preparation of the source: skip empty tables and tables of
the wrong granularity, sort descending by period key, truncate to the
per-ticker bound. -/
def prepTable (timePeriod : String) (maxPeriods : ℕ) (tbl : CTable) : List CRow :=
  if tbl.rows.isEmpty then []
  else if timePeriod == "quarter" then
    if tbl.hasQuarter then (sortAsc (crowDescLt true) tbl.rows).take maxPeriods else []
  else
    if tbl.hasQuarter then [] else (sortAsc (crowDescLt false) tbl.rows).take maxPeriods

/-- Non-null cells of a row, in column order. -/
def rowEntries (r : CRow) : List (String × ℚ) :=
  r.cells.filterMap fun kv => kv.2.map fun v => (kv.1, v)

/-- All (period, metric, value) contributions of one category table, in the
iteration order of the source loops. -/
def tableEntryList (timePeriod : String) (maxPeriods : ℕ) (tbl : CTable) :
    List (String × String × ℚ) :=
  (prepTable timePeriod maxPeriods tbl).flatMap fun r =>
    (rowEntries r).map fun mv => (rowLabel timePeriod r, mv)

/-- Contributions of one ticker across its category tables. -/
def tickerEntryList (timePeriod : String) (maxPeriods : ℕ)
    (cats : List (String × CTable)) : List (String × String × ℚ) :=
  cats.flatMap fun cat => tableEntryList timePeriod maxPeriods cat.2

/-- Period labels visited for one ticker, with duplicates (the source
appends each label once globally; the later first-seen dedup makes the two
formulations agree). -/
def tickerPeriodList (timePeriod : String) (maxPeriods : ℕ)
    (cats : List (String × CTable)) : List String :=
  cats.flatMap fun cat => (prepTable timePeriod maxPeriods cat.2).map (rowLabel timePeriod)

/-- All tagged contributions (ticker, period, metric, value) of the batch;
tickers with a missing dataset contribute nothing. -/
def allEntries (timePeriod : String) (maxPeriods : ℕ)
    (tickerData : List (String × Option (List (String × CTable)))) :
    List (String × String × String × ℚ) :=
  tickerData.flatMap fun td =>
    match td.2 with
    | none => []
    | some cats => (tickerEntryList timePeriod maxPeriods cats).map fun e => (td.1, e)

/-- All period labels of the batch, in first-visit order with duplicates. -/
def allPeriods (timePeriod : String) (maxPeriods : ℕ)
    (tickerData : List (String × Option (List (String × CTable)))) : List String :=
  tickerData.flatMap fun td =>
    match td.2 with
    | none => []
    | some cats => tickerPeriodList timePeriod maxPeriods cats

/-- First-seen deduplication with an explicit seen accumulator (the guarded
append of the source). -/
def dedupFirstAux (seen : List String) : List String → List String
  | [] => []
  | x :: xs =>
    if x ∈ seen then dedupFirstAux seen xs else x :: dedupFirstAux (x :: seen) xs

/-- First-seen deduplication (list of dict.fromkeys in the source). -/
def dedupFirst (l : List String) : List String :=
  dedupFirstAux [] l

/-- The nested dict read: the value stored for (ticker, period, metric) is
the last write, in iteration order. -/
def tpmLookup (entries : List (String × String × String × ℚ))
    (t p m : String) : Option ℚ :=
  ((entries.filter fun e => e.1 == t && e.2.1 == p && e.2.2.1 == m).getLast?).map
    fun e => e.2.2.2

/-- Sort key of a quarterly label, parsing Qn YYYY; unparsable labels map
to the origin (a malformed label raises in the source, which the enclosing
fetch turns into an empty result; labels built by the aligner always
parse). -/
def quarterSortKey (p : String) : ℤ × ℤ :=
  match pySplit p with
  | [q, y] =>
    match parseIntStr (q.drop 1), parseIntStr y with
    | some qn, some yn => (yn, qn)
    | _, _ => (0, 0)
  | _ => (0, 0)

/-- Sort key of a yearly label: its integer value when all digits, else 0. -/
def yearSortKey (p : String) : ℤ :=
  if allDigits p.data then ((parseNatChars p.data).getD 0 : ℤ) else 0

/-- Lexicographic strict order on (year, quarter) keys. -/
def keyLexLt (a b : ℤ × ℤ) : Bool :=
  a.1 < b.1 || (a.1 == b.1 && a.2 < b.2)

/-- Chronological strict order on period labels. -/
def periodLt (timePeriod : String) (p q : String) : Bool :=
  if timePeriod == "quarter" then keyLexLt (quarterSortKey p) (quarterSortKey q)
  else yearSortKey p < yearSortKey q

/-- The ascending chronological sort of the unioned period labels. -/
def sortPeriods (timePeriod : String) (ps : List String) : List String :=
  sortAsc (periodLt timePeriod) ps

/-- The record of one metric at one period: the per-ticker values in
compare-list order, or nothing when no ticker contributes (the has-data
guard of the source). -/
def seriesCell (entries : List (String × String × String × ℚ))
    (compare : List String) (m p : String) : Option PeriodRec :=
  match compare.filterMap fun t => (tpmLookup entries t p m).map fun v => (t, some v) with
  | [] => none
  | v :: vs => some ⟨p, v :: vs⟩

/-- The series of one metric: one record per period with at least one
contributing ticker, in compare-list order inside the record. -/
def seriesFor (entries : List (String × String × String × ℚ))
    (sortedPeriods compare : List String) (m : String) : List PeriodRec :=
  sortedPeriods.filterMap (seriesCell entries compare m)

/-- Embedding of _extract_historical_data: per-ticker, per-category
truncation, first-seen union of labels, chronological sort, and one record
per period that has data. -/
def _extract_historical_data (timePeriod : String) (compare metrics : List String)
    (tickerData : List (String × Option (List (String × CTable)))) :
    List (String × List PeriodRec) :=
  metrics.map fun m =>
    (m, seriesFor (allEntries timePeriod (maxPeriodsOf timePeriod) tickerData)
      (sortPeriods timePeriod
        (dedupFirst (allPeriods timePeriod (maxPeriodsOf timePeriod) tickerData)))
      compare m)

/-- Outcome of one ticker's gathered fetch: a raised exception, or a result
dict that may carry an error key. -/
inductive FetchOutcome where
  | exc (e : String)
  | res (hasError : Bool) (cats : List (String × CTable))
deriving DecidableEq, Repr

/-- The per-ticker screening of fetch_historical_data: exceptions and
error-bearing results become a missing dataset. -/
def batchTickerData (outcomes : List (String × FetchOutcome)) :
    List (String × Option (List (String × CTable))) :=
  outcomes.map fun o =>
    (o.1, match o.2 with
      | .exc _ => none
      | .res hasErr cats => if hasErr then none else some cats)

/-- A failed outcome: a raised exception or an embedded error payload. -/
def failedOutcome : FetchOutcome → Bool
  | .exc _ => true
  | .res hasErr _ => hasErr

/-- Embedding of fetch_historical_data (its aggregation core): screen each
ticker, then align. -/
def fetch_historical_data (timePeriod : String) (compare metrics : List String)
    (outcomes : List (String × FetchOutcome)) : List (String × List PeriodRec) :=
  _extract_historical_data timePeriod compare metrics (batchTickerData outcomes)

/-- Twelve quarters of descending history for the truncation example. -/
def witARows : List CRow :=
  [⟨2024, 4, [("ROE (%)", some 12)]⟩, ⟨2024, 3, [("ROE (%)", some 11)]⟩,
   ⟨2024, 2, [("ROE (%)", some 10)]⟩, ⟨2024, 1, [("ROE (%)", some 9)]⟩,
   ⟨2023, 4, [("ROE (%)", some 8)]⟩, ⟨2023, 3, [("ROE (%)", some 7)]⟩,
   ⟨2023, 2, [("ROE (%)", some 6)]⟩, ⟨2023, 1, [("ROE (%)", some 5)]⟩,
   ⟨2022, 4, [("ROE (%)", some 4)]⟩, ⟨2022, 3, [("ROE (%)", some 3)]⟩,
   ⟨2022, 2, [("ROE (%)", some 2)]⟩, ⟨2022, 1, [("ROE (%)", some 1)]⟩]

/-- Three quarters of descending history for the truncation example. -/
def witBRows : List CRow :=
  [⟨2024, 4, [("ROE (%)", some 30)]⟩, ⟨2024, 3, [("ROE (%)", some 29)]⟩,
   ⟨2024, 2, [("ROE (%)", some 28)]⟩]

/-! ## Theorems -/

/-- Evaluation helper: when the scaled value is an integer, fixed-point
rendering reduces to digit rendering of that integer. -/
theorem fmtFixedNonneg_of_scaled_int (q : ℚ) (d : ℕ) (m : ℤ) (h : q * 10 ^ d = (m : ℚ)) :
    fmtFixedNonneg q d = fmtScaled m d := by
  have hfloor : ⌊(m : ℚ)⌋ = m := Int.floor_intCast m
  have hround : roundHalfEven ((m : ℚ)) = m := by
    unfold roundHalfEven
    rw [hfloor]
    have hz : ((m : ℚ)) - (m : ℚ) = 0 := by ring
    rw [hz]
    norm_num
  unfold fmtFixedNonneg
  rw [h, hround]

/-- Helper: absolute value of 1500000000 over 10 to the 9, scaled by 100,
is the integer 150. -/
theorem flm_scale_15e8 : |(1500000000 : ℚ)| / 1000000000 * 10 ^ 2 = ((150 : ℤ) : ℚ) := by
  norm_num

/-- Helper: absolute value of -2000 scaled by 100 is the integer 200000. -/
theorem flm_scale_neg2000 : |(-2000 : ℚ)| * 10 ^ 2 = ((200000 : ℤ) : ℚ) := by
  norm_num

/-- C9: the value formatters render at or above 1e12 with a T suffix, at or
above 1e9 with a B suffix, at or above 1e6 with an M suffix, and below that
as a plain decimal with no suffix; percentages are always fixed-point with a
percent sign; None, NaN, and unparseable inputs yield N/A; in particular
format_large_number 1500000000 with 2 decimals is the string 1.50 B,
format_large_number -2000 with 2 decimals is -2000.00, and
format_percentage None is N/A. -/
theorem claim_C9_formatter_rules :
    (∀ (q : ℚ) (d : ℕ), 1000000000000 ≤ |q| →
      format_large_number (.num q) d =
        (if q < 0 then "-" else "") ++ (fmtFixedNonneg (|q| / 1000000000000) d ++ " T")) ∧
    (∀ (q : ℚ) (d : ℕ), 1000000000 ≤ |q| → |q| < 1000000000000 →
      format_large_number (.num q) d =
        (if q < 0 then "-" else "") ++ (fmtFixedNonneg (|q| / 1000000000) d ++ " B")) ∧
    (∀ (q : ℚ) (d : ℕ), 1000000 ≤ |q| → |q| < 1000000000 →
      format_large_number (.num q) d =
        (if q < 0 then "-" else "") ++ (fmtFixedNonneg (|q| / 1000000) d ++ " M")) ∧
    (∀ (q : ℚ) (d : ℕ), |q| < 1000000 →
      format_large_number (.num q) d =
        (if q < 0 then "-" else "") ++ fmtFixedNonneg (|q|) d) ∧
    (∀ (q : ℚ) (d : ℕ), format_percentage (.num q) d = pyFormatFixed q d ++ "%") ∧
    (∀ d, format_large_number .null d = "N/A" ∧ format_large_number .nan d = "N/A" ∧
      format_large_number .notNumeric d = "N/A" ∧ format_percentage .null d = "N/A" ∧
      format_percentage .nan d = "N/A" ∧ format_percentage .notNumeric d = "N/A") ∧
    format_large_number (.num 1500000000) 2 = "1.50 B" ∧
    format_large_number (.num (-2000)) 2 = "-2000.00" ∧
    format_percentage .null 2 = "N/A" := by
  refine ⟨?_, ?_, ?_, ?_, ?_, ?_, ?_, ?_, ?_⟩
  · intro q d h
    simp only [format_large_number, ge_iff_le, if_pos h]
  · intro q d h1 h2
    simp only [format_large_number, ge_iff_le, if_neg (not_le.mpr h2), if_pos h1]
  · intro q d h1 h2
    have h3 : ¬ (1000000000000 : ℚ) ≤ |q| := by
      intro hc; exact absurd (lt_of_lt_of_le h2 (by norm_num)) (not_lt.mpr hc)
    simp only [format_large_number, ge_iff_le, if_neg h3, if_neg (not_le.mpr h2), if_pos h1]
  · intro q d h1
    have h2 : ¬ (1000000 : ℚ) ≤ |q| := not_le.mpr h1
    have h3 : ¬ (1000000000 : ℚ) ≤ |q| := by
      intro hc; exact absurd (lt_of_lt_of_le h1 (by norm_num)) (not_lt.mpr hc)
    have h4 : ¬ (1000000000000 : ℚ) ≤ |q| := by
      intro hc; exact absurd (lt_of_lt_of_le h1 (by norm_num)) (not_lt.mpr hc)
    simp only [format_large_number, ge_iff_le, if_neg h4, if_neg h3, if_neg h2]
  · intro q d
    rfl
  · intro d
    exact ⟨rfl, rfl, rfl, rfl, rfl, rfl⟩
  · have h1 : ¬ (1000000000000 : ℚ) ≤ |(1500000000 : ℚ)| := by decide
    have h2 : (1000000000 : ℚ) ≤ |(1500000000 : ℚ)| := by decide
    have h3 : ¬ ((1500000000 : ℚ) < 0) := by decide
    simp only [format_large_number, ge_iff_le, if_neg h1, if_pos h2, if_neg h3]
    rw [fmtFixedNonneg_of_scaled_int _ 2 150 flm_scale_15e8]
    decide
  · have h1 : ¬ (1000000000000 : ℚ) ≤ |(-2000 : ℚ)| := by decide
    have h2 : ¬ (1000000000 : ℚ) ≤ |(-2000 : ℚ)| := by decide
    have h3 : ¬ (1000000 : ℚ) ≤ |(-2000 : ℚ)| := by decide
    have h4 : ((-2000 : ℚ) < 0) := by decide
    simp only [format_large_number, ge_iff_le, if_neg h1, if_neg h2, if_neg h3, if_pos h4]
    rw [fmtFixedNonneg_of_scaled_int _ 2 200000 flm_scale_neg2000]
    decide
  · rfl

/-- C9 witness: the threshold rules applied at the concrete inputs
2500000000000 (T range), 1500000000 (B range) and -2000 (plain range). -/
theorem claim_C9_formatter_rules_witness :
    ((1000000000000 : ℚ) ≤ |(2500000000000 : ℚ)| ∧
      format_large_number (.num 2500000000000) 2 =
        (if (2500000000000 : ℚ) < 0 then "-" else "") ++
          (fmtFixedNonneg (|(2500000000000 : ℚ)| / 1000000000000) 2 ++ " T")) ∧
    ((1000000000 : ℚ) ≤ |(1500000000 : ℚ)| ∧ |(1500000000 : ℚ)| < 1000000000000 ∧
      format_large_number (.num 1500000000) 2 =
        (if (1500000000 : ℚ) < 0 then "-" else "") ++
          (fmtFixedNonneg (|(1500000000 : ℚ)| / 1000000000) 2 ++ " B")) ∧
    (|(-2000 : ℚ)| < 1000000 ∧
      format_large_number (.num (-2000)) 2 =
        (if (-2000 : ℚ) < 0 then "-" else "") ++ fmtFixedNonneg (|(-2000 : ℚ)|) 2) :=
  ⟨⟨by decide, claim_C9_formatter_rules.1 2500000000000 2 (by decide)⟩,
   ⟨by decide, by decide,
     claim_C9_formatter_rules.2.1 1500000000 2 (by decide) (by decide)⟩,
   ⟨by decide, claim_C9_formatter_rules.2.2.2.1 (-2000) 2 (by decide)⟩⟩

/-- Structure lemma for the fold inside Python min with a key: the result is
an element of the list, its key is minimal, and every element left of it has
a strictly larger key. -/
theorem minFold_split (x : ℚ × String) (xs : List (ℚ × String)) :
    ∃ pre post,
      x :: xs = pre ++ (xs.foldl (fun acc y => if y.1 < acc.1 then y else acc) x) :: post ∧
      (∀ y ∈ x :: xs, (xs.foldl (fun acc y => if y.1 < acc.1 then y else acc) x).1 ≤ y.1) ∧
      (∀ y ∈ pre, (xs.foldl (fun acc y => if y.1 < acc.1 then y else acc) x).1 < y.1) := by
  induction xs generalizing x with
  | nil =>
    exact ⟨[], [], rfl, by intro y hy; simp at hy; simp [hy], by intro y hy; simp at hy⟩
  | cons y ys ih =>
    simp only [List.foldl_cons]
    by_cases hlt : y.1 < x.1
    · rw [if_pos hlt]
      obtain ⟨pre, post, heq, hmin, hpre⟩ := ih y
      refine ⟨x :: pre, post, ?_, ?_, ?_⟩
      · simpa using congrArg (List.cons x) heq
      · intro z hz
        rcases List.mem_cons.mp hz with hz | hz
        · subst hz
          exact le_of_lt (lt_of_le_of_lt (hmin y (List.mem_cons_self y ys)) hlt)
        · exact hmin z hz
      · intro z hz
        rcases List.mem_cons.mp hz with hz | hz
        · subst hz
          exact lt_of_le_of_lt (hmin y (List.mem_cons_self y ys)) hlt
        · exact hpre z hz
    · rw [if_neg hlt]
      obtain ⟨pre, post, heq, hmin, hpre⟩ := ih x
      have hxy : x.1 ≤ y.1 := le_of_not_lt hlt
      cases pre with
      | nil =>
        have hres : x = (ys.foldl (fun acc y => if y.1 < acc.1 then y else acc) x) := by
          simpa using congrArg (fun l => l.headI) heq
        refine ⟨[], y :: ys, ?_, ?_, ?_⟩
        · simp [← hres]
        · intro z hz
          rcases List.mem_cons.mp hz with hz | hz
          · subst hz; rw [← hres]
          · rcases List.mem_cons.mp hz with hz2 | hz2
            · subst hz2; rw [← hres]; exact hxy
            · exact hmin z (by simp [hz2])
        · intro z hz; simp at hz
      | cons p pre2 =>
        rw [List.cons_append] at heq
        injection heq with hpx hys
        have hxlt : (ys.foldl (fun acc y => if y.1 < acc.1 then y else acc) x).1 < x.1 := by
          apply hpre
          rw [← hpx]
          exact List.mem_cons_self x pre2
        refine ⟨x :: y :: pre2, post, ?_, ?_, ?_⟩
        · rw [List.cons_append, List.cons_append, ← hys]
        · intro z hz
          rcases List.mem_cons.mp hz with hz | hz
          · subst hz; exact le_of_lt hxlt
          · rcases List.mem_cons.mp hz with hz2 | hz2
            · subst hz2; exact le_of_lt (lt_of_lt_of_le hxlt hxy)
            · exact hmin z (by simp [hz2])
        · intro z hz
          rcases List.mem_cons.mp hz with hz | hz
          · subst hz; exact hxlt
          · rcases List.mem_cons.mp hz with hz2 | hz2
            · subst hz2; exact lt_of_lt_of_le hxlt hxy
            · apply hpre
              simp [hpx, hz2]

/-- Structure lemma for the fold inside Python max with a key: the result is
an element of the list, its key is maximal, and every element left of it has
a strictly smaller key. -/
theorem maxFold_split (x : ℚ × String) (xs : List (ℚ × String)) :
    ∃ pre post,
      x :: xs = pre ++ (xs.foldl (fun acc y => if acc.1 < y.1 then y else acc) x) :: post ∧
      (∀ y ∈ x :: xs, y.1 ≤ (xs.foldl (fun acc y => if acc.1 < y.1 then y else acc) x).1) ∧
      (∀ y ∈ pre, y.1 < (xs.foldl (fun acc y => if acc.1 < y.1 then y else acc) x).1) := by
  induction xs generalizing x with
  | nil =>
    exact ⟨[], [], rfl, by intro y hy; simp at hy; simp [hy], by intro y hy; simp at hy⟩
  | cons y ys ih =>
    simp only [List.foldl_cons]
    by_cases hlt : x.1 < y.1
    · rw [if_pos hlt]
      obtain ⟨pre, post, heq, hmax, hpre⟩ := ih y
      refine ⟨x :: pre, post, ?_, ?_, ?_⟩
      · simpa using congrArg (List.cons x) heq
      · intro z hz
        rcases List.mem_cons.mp hz with hz | hz
        · subst hz
          exact le_of_lt (lt_of_lt_of_le hlt (hmax y (List.mem_cons_self y ys)))
        · exact hmax z hz
      · intro z hz
        rcases List.mem_cons.mp hz with hz | hz
        · subst hz
          exact lt_of_lt_of_le hlt (hmax y (List.mem_cons_self y ys))
        · exact hpre z hz
    · rw [if_neg hlt]
      obtain ⟨pre, post, heq, hmax, hpre⟩ := ih x
      have hxy : y.1 ≤ x.1 := le_of_not_lt hlt
      cases pre with
      | nil =>
        have hres : x = (ys.foldl (fun acc y => if acc.1 < y.1 then y else acc) x) := by
          simpa using congrArg (fun l => l.headI) heq
        refine ⟨[], y :: ys, ?_, ?_, ?_⟩
        · simp [← hres]
        · intro z hz
          rcases List.mem_cons.mp hz with hz | hz
          · subst hz; rw [← hres]
          · rcases List.mem_cons.mp hz with hz2 | hz2
            · subst hz2; rw [← hres]; exact hxy
            · exact hmax z (by simp [hz2])
        · intro z hz; simp at hz
      | cons p pre2 =>
        rw [List.cons_append] at heq
        injection heq with hpx hys
        have hxlt : x.1 < (ys.foldl (fun acc y => if acc.1 < y.1 then y else acc) x).1 := by
          apply hpre
          rw [← hpx]
          exact List.mem_cons_self x pre2
        refine ⟨x :: y :: pre2, post, ?_, ?_, ?_⟩
        · rw [List.cons_append, List.cons_append, ← hys]
        · intro z hz
          rcases List.mem_cons.mp hz with hz | hz
          · subst hz; exact le_of_lt hxlt
          · rcases List.mem_cons.mp hz with hz2 | hz2
            · subst hz2; exact le_of_lt (lt_of_le_of_lt hxy hxlt)
            · exact hmax z (by simp [hz2])
        · intro z hz
          rcases List.mem_cons.mp hz with hz | hz
          · subst hz; exact hxlt
          · rcases List.mem_cons.mp hz with hz2 | hz2
            · subst hz2; exact lt_of_le_of_lt hxy hxlt
            · apply hpre
              simp [hpx, hz2]

/-- Splitting a filterMap image: a decomposition of the output list induces
a decomposition of the input list around a preimage of the marked element. -/
theorem filterMap_split {α β : Type} {f : α → Option β} {l : List α}
    {a : List β} {b : β} {c : List β} (h : l.filterMap f = a ++ b :: c) :
    ∃ l1 x l2, l = l1 ++ x :: l2 ∧ f x = some b ∧ l1.filterMap f = a := by
  induction l generalizing a with
  | nil =>
    rw [List.filterMap_nil] at h
    exact absurd h.symm (List.append_ne_nil_of_right_ne_nil a (List.cons_ne_nil b c))
  | cons u us ih =>
    rw [List.filterMap_cons] at h
    cases hfu : f u with
    | none =>
      rw [hfu] at h
      obtain ⟨l1, x, l2, hsplit, hx, hpre⟩ := ih h
      exact ⟨u :: l1, x, l2, by rw [hsplit, List.cons_append],
        hx, by rw [List.filterMap_cons, hfu, hpre]⟩
    | some v =>
      rw [hfu] at h
      cases a with
      | nil =>
        rw [List.nil_append] at h
        injection h with h1 h2
        exact ⟨[], u, us, rfl, by rw [hfu, h1], rfl⟩
      | cons a0 as =>
        rw [List.cons_append] at h
        injection h with h1 h2
        obtain ⟨l1, x, l2, hsplit, hx, hpre⟩ := ih h2
        exact ⟨u :: l1, x, l2, by rw [hsplit, List.cons_append],
          hx, by rw [List.filterMap_cons, hfu, hpre, h1]⟩

/-- C1 counterexample: the claim says metrics outside both direction sets
get no winner, but the code takes the maximum for every metric outside its
single lower-is-better set.  The metric Net Sales is in neither direction
table, yet with values AAA at 10 and BBB at 20 the code names BBB. -/
theorem claim_C1_counterexample :
    "Net Sales" ∉ higher_better ∧ "Net Sales" ∉ lower_is_better ∧
    industry_best_performer
      [("Net Sales", [⟨"Q2 2025", [("AAA", some 10), ("BBB", some 20)]⟩])]
      ["AAA", "BBB"] ["AAA", "BBB"] "Net Sales" = some "BBB" := by
  refine ⟨by decide, by decide, by decide⟩

/-- C1 amended: among the stocks of an industry with a non-null numeric
value for the metric in that metric's most recent period, the code picks the
minimum for metrics in the lower-is-better set and the maximum for every
other metric (there is no separate higher-is-better set); no winner is
recorded exactly when no stock has such a value; on a tie the
first-encountered ticker wins. -/
theorem claim_C1_best_performer_amended :
    ∀ (historical : HistoricalData) (compare stocks : List String) (metric : String),
      (industry_best_performer historical compare stocks metric = none ↔
        bestCandidates historical compare stocks metric = []) ∧
      (∀ t, industry_best_performer historical compare stocks metric = some t →
        ∃ v spre spost, stocks = spre ++ t :: spost ∧
          getLatestValue historical compare t metric = some v ∧
          (∀ s ∈ stocks, ∀ u, getLatestValue historical compare s metric = some u →
            if metric ∈ lower_is_better then v ≤ u else u ≤ v) ∧
          (∀ s ∈ spre, ∀ u, getLatestValue historical compare s metric = some u →
            if metric ∈ lower_is_better then v < u else u < v)) := by
  intro historical compare stocks metric
  constructor
  · by_cases hm : metric ∈ lower_is_better
    · simp only [industry_best_performer, if_pos hm]
      cases hv : bestCandidates historical compare stocks metric with
      | nil => simp [hv, pyMinFirst]
      | cons a as => simp [hv, pyMinFirst]
    · simp only [industry_best_performer, if_neg hm]
      cases hv : bestCandidates historical compare stocks metric with
      | nil => simp [hv, pyMaxFirst]
      | cons a as => simp [hv, pyMaxFirst]
  · intro t ht
    by_cases hm : metric ∈ lower_is_better
    · simp only [industry_best_performer, if_pos hm] at ht
      cases hv : bestCandidates historical compare stocks metric with
      | nil => rw [hv] at ht; simp [pyMinFirst] at ht
      | cons a as =>
        rw [hv] at ht
        simp only [pyMinFirst, Option.map_some', Option.some.injEq] at ht
        obtain ⟨pre, post, heq, hmin, hpre⟩ := minFold_split a as
        have hfm : stocks.filterMap
            (fun s => (getLatestValue historical compare s metric).map fun v => (v, s)) =
            pre ++ (as.foldl (fun acc y => if y.1 < acc.1 then y else acc) a) :: post := by
          rw [← heq, ← hv]; rfl
        obtain ⟨l1, x, l2, hsplit, hx, hpreimg⟩ := filterMap_split hfm
        cases hglv : getLatestValue historical compare x metric with
        | none => rw [hglv] at hx; simp at hx
        | some w =>
          rw [hglv] at hx
          simp only [Option.map_some', Option.some.injEq] at hx
          have hxt : x = t := by rw [← ht, ← hx]
          refine ⟨(as.foldl (fun acc y => if y.1 < acc.1 then y else acc) a).1, l1, l2,
            by rw [hsplit, hxt], ?_, ?_, ?_⟩
          · rw [← hxt, hglv, ← hx]
          · intro s hs u hu
            rw [if_pos hm]
            exact hmin (u, s)
              (by rw [heq, ← hfm]; exact List.mem_filterMap.mpr ⟨s, hs, by rw [hu]; rfl⟩)
          · intro s hs u hu
            rw [if_pos hm]
            exact hpre (u, s)
              (by rw [← hpreimg]; exact List.mem_filterMap.mpr ⟨s, hs, by rw [hu]; rfl⟩)
    · simp only [industry_best_performer, if_neg hm] at ht
      cases hv : bestCandidates historical compare stocks metric with
      | nil => rw [hv] at ht; simp [pyMaxFirst] at ht
      | cons a as =>
        rw [hv] at ht
        simp only [pyMaxFirst, Option.map_some', Option.some.injEq] at ht
        obtain ⟨pre, post, heq, hmax, hpre⟩ := maxFold_split a as
        have hfm : stocks.filterMap
            (fun s => (getLatestValue historical compare s metric).map fun v => (v, s)) =
            pre ++ (as.foldl (fun acc y => if acc.1 < y.1 then y else acc) a) :: post := by
          rw [← heq, ← hv]; rfl
        obtain ⟨l1, x, l2, hsplit, hx, hpreimg⟩ := filterMap_split hfm
        cases hglv : getLatestValue historical compare x metric with
        | none => rw [hglv] at hx; simp at hx
        | some w =>
          rw [hglv] at hx
          simp only [Option.map_some', Option.some.injEq] at hx
          have hxt : x = t := by rw [← ht, ← hx]
          refine ⟨(as.foldl (fun acc y => if acc.1 < y.1 then y else acc) a).1, l1, l2,
            by rw [hsplit, hxt], ?_, ?_, ?_⟩
          · rw [← hxt, hglv, ← hx]
          · intro s hs u hu
            rw [if_neg hm]
            exact hmax (u, s)
              (by rw [heq, ← hfm]; exact List.mem_filterMap.mpr ⟨s, hs, by rw [hu]; rfl⟩)
          · intro s hs u hu
            rw [if_neg hm]
            exact hpre (u, s)
              (by rw [← hpreimg]; exact List.mem_filterMap.mpr ⟨s, hs, by rw [hu]; rfl⟩)

/-- C1 witness: the spec example for P over E (lower is better) with values
AAA at 10, BBB at 20, CCC at 15 names AAA, and the amended characterization
applies to it. -/
theorem claim_C1_best_performer_amended_witness :
    industry_best_performer
        [("P/E", [⟨"Q2 2025", [("AAA", some 10), ("BBB", some 20), ("CCC", some 15)]⟩])]
        ["AAA", "BBB", "CCC"] ["AAA", "BBB", "CCC"] "P/E" = some "AAA" ∧
    (∃ v spre spost, ["AAA", "BBB", "CCC"] = spre ++ "AAA" :: spost ∧
      getLatestValue
          [("P/E", [⟨"Q2 2025", [("AAA", some 10), ("BBB", some 20), ("CCC", some 15)]⟩])]
          ["AAA", "BBB", "CCC"] "AAA" "P/E" = some v ∧
      (∀ s ∈ ["AAA", "BBB", "CCC"], ∀ u,
        getLatestValue
            [("P/E", [⟨"Q2 2025", [("AAA", some 10), ("BBB", some 20), ("CCC", some 15)]⟩])]
            ["AAA", "BBB", "CCC"] s "P/E" = some u →
        if "P/E" ∈ lower_is_better then v ≤ u else u ≤ v) ∧
      (∀ s ∈ spre, ∀ u,
        getLatestValue
            [("P/E", [⟨"Q2 2025", [("AAA", some 10), ("BBB", some 20), ("CCC", some 15)]⟩])]
            ["AAA", "BBB", "CCC"] s "P/E" = some u →
        if "P/E" ∈ lower_is_better then v < u else u < v)) :=
  ⟨by decide,
   (claim_C1_best_performer_amended
      [("P/E", [⟨"Q2 2025", [("AAA", some 10), ("BBB", some 20), ("CCC", some 15)]⟩])]
      ["AAA", "BBB", "CCC"] ["AAA", "BBB", "CCC"] "P/E").2 "AAA" (by decide)⟩

/-- C2 counterexample: the framework name Operating Margin has an exact
entry in the static table (mapping to Operating Profit/Loss) but no substring
relation to that column, so the claimed two-stage procedure resolves it while
the code drops it. -/
theorem claim_C2_counterexample :
    claimResolveFrameworkMetric [("Profitability", ["Operating Profit/Loss"])]
        "Operating Margin" = ["Operating Profit/Loss"] ∧
    resolveFrameworkMetric [("Profitability", ["Operating Profit/Loss"])]
        "Operating Margin" = [] := by
  refine ⟨by decide, by decide⟩

/-- Auxiliary: a successful find gives a split of the list at the first
element satisfying the predicate. -/
theorem find?_split {α : Type} {p : α → Bool} {l : List α} {x : α}
    (h : l.find? p = some x) :
    ∃ l1 l2, l = l1 ++ x :: l2 ∧ p x = true ∧ ∀ y ∈ l1, p y = false := by
  induction l with
  | nil => simp at h
  | cons a as ih =>
    rw [List.find?_cons] at h
    cases hpa : p a with
    | true =>
      rw [hpa] at h
      injection h with h1
      exact ⟨[], as, by rw [h1]; rfl, by rw [← h1]; exact hpa, by intro y hy; simp at hy⟩
    | false =>
      rw [hpa] at h
      obtain ⟨l1, l2, hsplit, hpx, hpre⟩ := ih h
      refine ⟨a :: l1, l2, by rw [hsplit, List.cons_append], hpx, ?_⟩
      intro y hy
      rcases List.mem_cons.mp hy with hy | hy
      · rw [hy]; exact hpa
      · exact hpre y hy

/-- Auxiliary: the accumulator of the resolution fold only grows, and every
new element is the first match of some category. -/
theorem resolveFold_mem (l : List (String × List String)) (fwName : String)
    (acc : List String) (m : String)
    (h : m ∈ l.foldl (fun acc cat =>
      match cat.2.find? (fun dbMetric => frameworkNameMatches fwName dbMetric) with
      | some x => acc ++ [x]
      | none => acc) acc) :
    m ∈ acc ∨ ∃ cat ∈ l, ∃ p1 p2, cat.2 = p1 ++ m :: p2 ∧
      frameworkNameMatches fwName m = true ∧
      ∀ m2 ∈ p1, frameworkNameMatches fwName m2 = false := by
  induction l generalizing acc with
  | nil => exact Or.inl h
  | cons c cs ih =>
    rw [List.foldl_cons] at h
    cases hf : c.2.find? (fun dbMetric => frameworkNameMatches fwName dbMetric) with
    | none =>
      rw [hf] at h
      rcases ih _ h with hacc | ⟨cat, hcat, rest⟩
      · exact Or.inl hacc
      · exact Or.inr ⟨cat, List.mem_cons_of_mem c hcat, rest⟩
    | some x =>
      rw [hf] at h
      rcases ih _ h with hacc | ⟨cat, hcat, rest⟩
      · rcases List.mem_append.mp hacc with hacc | hx
        · exact Or.inl hacc
        · have hmx : m = x := by simpa using hx
          obtain ⟨l1, l2, hsplit, hpx, hpre⟩ := find?_split hf
          exact Or.inr ⟨c, List.mem_cons_self c cs,
            l1, l2, by rw [hsplit, hmx], by rw [hmx]; exact hpx,
            fun m2 hm2 => hpre m2 hm2⟩
      · exact Or.inr ⟨cat, List.mem_cons_of_mem c hcat, rest⟩

/-- Auxiliary: when no database metric of any category matches, the
resolution fold returns its accumulator unchanged. -/
theorem resolveFold_nomatch (l : List (String × List String)) (fwName : String)
    (acc : List String)
    (h : ∀ cat ∈ l, ∀ db ∈ cat.2, frameworkNameMatches fwName db = false) :
    l.foldl (fun acc cat =>
      match cat.2.find? (fun dbMetric => frameworkNameMatches fwName dbMetric) with
      | some x => acc ++ [x]
      | none => acc) acc = acc := by
  induction l generalizing acc with
  | nil => rfl
  | cons c cs ih =>
    rw [List.foldl_cons]
    have hf : c.2.find? (fun dbMetric => frameworkNameMatches fwName dbMetric) = none := by
      rw [List.find?_eq_none]
      intro db hdb
      rw [h c (List.mem_cons_self c cs) db hdb]
      simp
    rw [hf]
    exact ih _ (fun cat hcat => h cat (List.mem_cons_of_mem c hcat))

/-- C2 amended: apply_framework_filter resolves a framework metric name by
the case-insensitive two-way substring scan alone (no exact table-lookup
stage exists): a name matching nothing is silently dropped, every resolved
column is the first substring match within its database category (each
category can contribute one match), and in particular a name like Return on
Equity with no substring relation to the column ROE (%) resolves to
nothing. -/
theorem claim_C2_framework_resolution_amended :
    ∀ (allMetrics : List (String × List String)) (fwName : String),
      ((∀ cat ∈ allMetrics, ∀ db ∈ cat.2, frameworkNameMatches fwName db = false) →
        resolveFrameworkMetric allMetrics fwName = []) ∧
      (∀ m, m ∈ resolveFrameworkMetric allMetrics fwName →
        ∃ cat ∈ allMetrics, ∃ p1 p2, cat.2 = p1 ++ m :: p2 ∧
          frameworkNameMatches fwName m = true ∧
          ∀ m2 ∈ p1, frameworkNameMatches fwName m2 = false) ∧
      resolveFrameworkMetric [("Profitability", ["ROE (%)"])] "Return on Equity" = [] := by
  intro allMetrics fwName
  refine ⟨?_, ?_, by decide⟩
  · intro h
    exact resolveFold_nomatch allMetrics fwName [] h
  · intro m hm
    rcases resolveFold_mem allMetrics fwName [] m hm with hacc | hgood
    · simp at hacc
    · exact hgood

/-- C2 witness: the amended resolution rules applied at a concrete catalog;
the name roe substring-matches the column ROE (%) and resolves to it, and a
name matching nothing resolves to the empty list. -/
theorem claim_C2_framework_resolution_amended_witness :
    ("ROE (%)" ∈ resolveFrameworkMetric [("Profitability", ["ROE (%)"])] "roe" ∧
      (∃ cat ∈ [("Profitability", ["ROE (%)"])], ∃ p1 p2,
        cat.2 = p1 ++ "ROE (%)" :: p2 ∧
        frameworkNameMatches "roe" "ROE (%)" = true ∧
        ∀ m2 ∈ p1, frameworkNameMatches "roe" m2 = false)) ∧
    ((∀ cat ∈ [("Profitability", ["ROE (%)"])], ∀ db ∈ cat.2,
        frameworkNameMatches "Return on Equity" db = false) ∧
      resolveFrameworkMetric [("Profitability", ["ROE (%)"])] "Return on Equity" = []) :=
  ⟨⟨by decide,
    (claim_C2_framework_resolution_amended [("Profitability", ["ROE (%)"])] "roe").2.1
      "ROE (%)" (by decide)⟩,
   ⟨by decide,
    (claim_C2_framework_resolution_amended
        [("Profitability", ["ROE (%)"])] "Return on Equity").1 (by decide)⟩⟩

/-- The fetch path always reports that the fetchers ran. -/
theorem gtf_flag (cache : DSCache) (now : ℕ) (ticker period : String)
    (fetch : Except String FetchedFrames)
    (categorize : FetchedFrames → Except String (List (String × List DRec))) :
    (get_transformed_fetch cache now ticker period fetch categorize).2.2 = true := by
  unfold get_transformed_fetch
  cases fetch with
  | error e => rfl
  | ok f =>
    cases hc : categorize f <;> by_cases hE : f.ratios_df.isEmpty <;> simp [hE, hc]

/-- The fetch path leaves the cache unchanged unless it returns an
error-free dataset. -/
theorem gtf_error_cache (cache : DSCache) (now : ℕ) (ticker period : String)
    (fetch : Except String FetchedFrames)
    (categorize : FetchedFrames → Except String (List (String × List DRec)))
    (herr : (get_transformed_fetch cache now ticker period fetch categorize).1.error.isSome) :
    (get_transformed_fetch cache now ticker period fetch categorize).2.1 = cache := by
  unfold get_transformed_fetch at herr ⊢
  cases fetch with
  | error e => rfl
  | ok f =>
    cases hc : categorize f with
    | error e => by_cases hE : f.ratios_df.isEmpty <;> simp [hE, hc]
    | ok cats =>
      by_cases hE : f.ratios_df.isEmpty
      · simp [hE]
      · simp [hE, hc] at herr

/-- A successful (error-free) run of the fetch path stores its result into
the cache under the ticker-underscore-period key, at the front. -/
theorem gtf_success_cache (cache : DSCache) (now : ℕ) (ticker period : String)
    (fetch : Except String FetchedFrames)
    (categorize : FetchedFrames → Except String (List (String × List DRec)))
    (herr : (get_transformed_fetch cache now ticker period fetch categorize).1.error = none) :
    (get_transformed_fetch cache now ticker period fetch categorize).2.1 =
      insertCache (ticker ++ "_" ++ period)
        (get_transformed_fetch cache now ticker period fetch categorize).1 now cache := by
  unfold get_transformed_fetch at herr ⊢
  cases fetch with
  | error e => simp [errorDataset] at herr
  | ok f =>
    by_cases hE : f.ratios_df.isEmpty
    · simp [hE, errorDataset] at herr
    · cases hc : categorize f with
      | error e => simp [hE, hc, errorDataset] at herr
      | ok cats => simp [hE, hc]

/-- Case analysis of the cached entry point: either a fresh cache hit is
returned without fetching, or the call equals the fetch path and any cached
entry under the key was stale. -/
theorem gtc_cases (cache : DSCache) (now : ℕ) (ticker period : String)
    (fetch : Except String FetchedFrames)
    (categorize : FetchedFrames → Except String (List (String × List DRec))) :
    (∃ d t, List.lookup (ticker ++ "_" ++ period) cache = some (d, t) ∧
      now - t < cache_duration ∧
      get_transformed_cached cache now ticker period fetch categorize = (d, cache, false)) ∨
    ((∀ d t, List.lookup (ticker ++ "_" ++ period) cache = some (d, t) →
        cache_duration ≤ now - t) ∧
      get_transformed_cached cache now ticker period fetch categorize =
        get_transformed_fetch cache now ticker period fetch categorize) := by
  unfold get_transformed_cached
  cases hl : List.lookup (ticker ++ "_" ++ period) cache with
  | none =>
    refine Or.inr ⟨?_, rfl⟩
    intro d t hdt
    exact absurd hdt (by simp)
  | some dt =>
    obtain ⟨d, t⟩ := dt
    by_cases hfresh : now - t < cache_duration
    · exact Or.inl ⟨d, t, rfl, hfresh, by simp [hfresh]⟩
    · refine Or.inr ⟨?_, by simp [hfresh]⟩
      intro d2 t2 hdt
      injection hdt with h1
      injection h1 with ha hb
      rw [← hb]
      exact le_of_not_lt hfresh

/-- C3: whenever the fetch or the categorization raises, the wrapper
returns the error skeleton: all six category keys present and mapped to
empty lists, the statement lists empty, and the error string set; nothing
propagates. -/
theorem claim_C3_error_skeleton :
    ∀ (fetch : Except String FetchedFrames)
      (categorize : FetchedFrames → Except String (List (String × List DRec)))
      (e : String),
      (fetch = Except.error e ∨
        ∃ f, fetch = Except.ok f ∧ f.ratios_df.isEmpty = false ∧
          categorize f = Except.error e) →
      (get_transformed_dataframes fetch categorize).categorized_ratios.map Prod.fst =
        category_keys ∧
      (∀ kv ∈ (get_transformed_dataframes fetch categorize).categorized_ratios,
        kv.2 = ([] : List DRec)) ∧
      (get_transformed_dataframes fetch categorize).error = some e ∧
      (get_transformed_dataframes fetch categorize).transformed_income_statement = [] ∧
      (get_transformed_dataframes fetch categorize).transformed_balance_sheet = [] ∧
      (get_transformed_dataframes fetch categorize).transformed_cash_flow = [] := by
  intro fetch categorize e h
  have hres : get_transformed_dataframes fetch categorize = errorDataset e := by
    rcases h with h | ⟨f, hf, hne, hcat⟩
    · rw [h]; rfl
    · rw [hf]
      unfold get_transformed_dataframes
      simp [hne, hcat]
  rw [hres]
  refine ⟨?_, ?_, rfl, rfl, rfl, rfl⟩
  · simp only [errorDataset, emptyCategorized, List.map_map]
    exact List.map_id category_keys
  · intro kv hkv
    simp only [errorDataset, emptyCategorized, List.mem_map] at hkv
    obtain ⟨k, _, hkv⟩ := hkv
    rw [← hkv]

/-- C3 witness: a raising fetch at a concrete input produces the six-key
all-empty skeleton with the raised message. -/
theorem claim_C3_error_skeleton_witness :
    (get_transformed_dataframes (Except.error "boom")
        (fun _ => Except.ok [])).categorized_ratios.map Prod.fst = category_keys ∧
    (∀ kv ∈ (get_transformed_dataframes (Except.error "boom")
        (fun _ => Except.ok [])).categorized_ratios, kv.2 = ([] : List DRec)) ∧
    (get_transformed_dataframes (Except.error "boom")
        (fun _ => Except.ok [])).error = some "boom" ∧
    (get_transformed_dataframes (Except.error "boom")
        (fun _ => Except.ok [])).transformed_income_statement = [] ∧
    (get_transformed_dataframes (Except.error "boom")
        (fun _ => Except.ok [])).transformed_balance_sheet = [] ∧
    (get_transformed_dataframes (Except.error "boom")
        (fun _ => Except.ok [])).transformed_cash_flow = [] :=
  claim_C3_error_skeleton (Except.error "boom") (fun _ => Except.ok []) "boom" (Or.inl rfl)

/-- C7 counterexample: with an empty cache and a failing fetch, the first
call returns an error-bearing result, and a second call ten minutes later
(inside the 30-minute TTL) invokes the fetchers again, contrary to the
unconditional claim. -/
theorem claim_C7_counterexample :
    (get_transformed_cached [] 0 "VNM" "quarter" (Except.error "db down")
        (fun _ => Except.ok [])).1.error = some "db down" ∧
    (get_transformed_cached [] 0 "VNM" "quarter" (Except.error "db down")
        (fun _ => Except.ok [])).2.2 = true ∧
    10 - 0 < cache_duration ∧
    (get_transformed_cached
        (get_transformed_cached [] 0 "VNM" "quarter" (Except.error "db down")
          (fun _ => Except.ok [])).2.1
        10 "VNM" "quarter" (Except.error "db down") (fun _ => Except.ok [])).2.2 = true := by
  refine ⟨rfl, rfl, by decide, rfl⟩

/-- C7 amended: after a call that actually ran the fetchers and stored a
successful (error-free) dataset, any call with the same ticker and period
within the 30-minute TTL returns the identical cached dataset, leaves the
cache unchanged, and does not invoke the fetchers; the memoization key is
the ticker-underscore-period string. -/
theorem claim_C7_cached_idempotent_amended :
    ∀ (cache : DSCache) (now : ℕ) (ticker period : String)
      (fetch : Except String FetchedFrames)
      (categorize : FetchedFrames → Except String (List (String × List DRec))),
      (get_transformed_cached cache now ticker period fetch categorize).2.2 = true →
      (get_transformed_cached cache now ticker period fetch categorize).1.error = none →
      ∀ (now2 : ℕ) (fetch2 : Except String FetchedFrames)
        (categorize2 : FetchedFrames → Except String (List (String × List DRec))),
        now2 - now < cache_duration →
        get_transformed_cached
          (get_transformed_cached cache now ticker period fetch categorize).2.1
          now2 ticker period fetch2 categorize2 =
        ((get_transformed_cached cache now ticker period fetch categorize).1,
         (get_transformed_cached cache now ticker period fetch categorize).2.1,
         false) := by
  intro cache now ticker period fetch categorize hflag herr now2 fetch2 categorize2 httl
  rcases gtc_cases cache now ticker period fetch categorize with
    ⟨d, t, hl, hf, heq⟩ | ⟨hstale, heq⟩
  · rw [heq] at hflag; simp at hflag
  · rw [heq] at herr ⊢
    rw [gtf_success_cache cache now ticker period fetch categorize herr]
    unfold get_transformed_cached
    have hlk : List.lookup (ticker ++ "_" ++ period)
        (insertCache (ticker ++ "_" ++ period)
          (get_transformed_fetch cache now ticker period fetch categorize).1 now cache) =
        some ((get_transformed_fetch cache now ticker period fetch categorize).1, now) := by
      unfold insertCache
      simp [List.lookup]
    simp [hlk, httl]

/-- C7 witness: a concrete successful first call at minute 0 followed by a
call at minute 10 with the same key hits the cache. -/
theorem claim_C7_cached_idempotent_amended_witness :
    (get_transformed_cached [] 0 "VNM" "quarter"
        (Except.ok ⟨[[("Year", some 2020)]], [], [], []⟩)
        (fun _ => Except.ok [("Per Share Value", [])])).2.2 = true ∧
    (get_transformed_cached [] 0 "VNM" "quarter"
        (Except.ok ⟨[[("Year", some 2020)]], [], [], []⟩)
        (fun _ => Except.ok [("Per Share Value", [])])).1.error = none ∧
    10 - 0 < cache_duration ∧
    get_transformed_cached
        (get_transformed_cached [] 0 "VNM" "quarter"
          (Except.ok ⟨[[("Year", some 2020)]], [], [], []⟩)
          (fun _ => Except.ok [("Per Share Value", [])])).2.1
        10 "VNM" "quarter" (Except.error "later outage") (fun _ => Except.ok []) =
      ((get_transformed_cached [] 0 "VNM" "quarter"
          (Except.ok ⟨[[("Year", some 2020)]], [], [], []⟩)
          (fun _ => Except.ok [("Per Share Value", [])])).1,
       (get_transformed_cached [] 0 "VNM" "quarter"
          (Except.ok ⟨[[("Year", some 2020)]], [], [], []⟩)
          (fun _ => Except.ok [("Per Share Value", [])])).2.1,
       false) :=
  ⟨rfl, rfl, by decide,
   claim_C7_cached_idempotent_amended [] 0 "VNM" "quarter"
     (Except.ok ⟨[[("Year", some 2020)]], [], [], []⟩)
     (fun _ => Except.ok [("Per Share Value", [])]) rfl rfl
     10 (Except.error "later outage") (fun _ => Except.ok []) (by decide)⟩

/-- C10: an error-bearing result never modifies the cache, and after a call
that fetched and got an error-bearing result, any later call with the same
key fetches again instead of serving a cached error. -/
theorem claim_C10_error_not_cached :
    ∀ (cache : DSCache) (now : ℕ) (ticker period : String)
      (fetch : Except String FetchedFrames)
      (categorize : FetchedFrames → Except String (List (String × List DRec))),
      ((get_transformed_cached cache now ticker period fetch categorize).1.error.isSome →
        (get_transformed_cached cache now ticker period fetch categorize).2.1 = cache) ∧
      ((get_transformed_cached cache now ticker period fetch categorize).2.2 = true →
        (get_transformed_cached cache now ticker period fetch categorize).1.error.isSome →
        ∀ (now2 : ℕ) (fetch2 : Except String FetchedFrames)
          (categorize2 : FetchedFrames → Except String (List (String × List DRec))),
          now ≤ now2 →
          (get_transformed_cached
            (get_transformed_cached cache now ticker period fetch categorize).2.1
            now2 ticker period fetch2 categorize2).2.2 = true) := by
  intro cache now ticker period fetch categorize
  constructor
  · intro herr
    rcases gtc_cases cache now ticker period fetch categorize with
      ⟨d, t, hl, hf, heq⟩ | ⟨hstale, heq⟩
    · rw [heq]
    · rw [heq] at herr ⊢
      exact gtf_error_cache cache now ticker period fetch categorize herr
  · intro hflag herr now2 fetch2 categorize2 hle
    rcases gtc_cases cache now ticker period fetch categorize with
      ⟨d, t, hl, hf, heq⟩ | ⟨hstale, heq⟩
    · rw [heq] at hflag; simp at hflag
    · have hcache :
          (get_transformed_cached cache now ticker period fetch categorize).2.1 = cache := by
        rw [heq] at herr ⊢
        exact gtf_error_cache cache now ticker period fetch categorize herr
      rw [hcache]
      rcases gtc_cases cache now2 ticker period fetch2 categorize2 with
        ⟨d2, t2, hl2, hf2, heq2⟩ | ⟨_, heq2⟩
      · have hstale2 := hstale d2 t2 hl2
        have hmono : now - t2 ≤ now2 - t2 := Nat.sub_le_sub_right hle t2
        exact absurd hf2 (not_lt.mpr (le_trans hstale2 hmono))
      · rw [heq2]
        exact gtf_flag cache now2 ticker period fetch2 categorize2

/-- C10 witness: a concrete failing call at minute 0 leaves the empty cache
empty, and a call at minute 5 fetches again. -/
theorem claim_C10_error_not_cached_witness :
    (get_transformed_cached [] 0 "FPT" "year" (Except.error "outage")
        (fun _ => Except.ok [])).1.error.isSome = true ∧
    (get_transformed_cached [] 0 "FPT" "year" (Except.error "outage")
        (fun _ => Except.ok [])).2.1 = [] ∧
    (get_transformed_cached [] 0 "FPT" "year" (Except.error "outage")
        (fun _ => Except.ok [])).2.2 = true ∧
    (0 : ℕ) ≤ 5 ∧
    (get_transformed_cached
        (get_transformed_cached [] 0 "FPT" "year" (Except.error "outage")
          (fun _ => Except.ok [])).2.1
        5 "FPT" "year" (Except.error "outage") (fun _ => Except.ok [])).2.2 = true :=
  ⟨rfl,
   (claim_C10_error_not_cached [] 0 "FPT" "year" (Except.error "outage")
      (fun _ => Except.ok [])).1 rfl,
   rfl, by decide,
   (claim_C10_error_not_cached [] 0 "FPT" "year" (Except.error "outage")
      (fun _ => Except.ok [])).2 rfl rfl 5 (Except.error "outage")
     (fun _ => Except.ok []) (by decide)⟩

/-- C4 counterexample: a single-period dataset whose columns contain none
of the five growth source metrics yields one Year-only record, not the
empty Growth Rate category the claim requires for every single-period
input. -/
theorem claim_C4_counterexample :
    _compute_growth_rates ⟨["year", "ROE (%)"], [[some 2020, some 5]]⟩ "year" =
      [[("Year", some 2020)]] ∧
    ([[("Year", some (2020 : ℚ))]] : List DRec) ≠ [] := by
  refine ⟨by decide, by decide⟩

/-- Auxiliary: a found column index means the column is present. -/
theorem colIndex_mem (cols : List String) (c : String) (i : ℕ)
    (h : colIndex cols c = some i) : c ∈ cols := by
  induction cols generalizing i with
  | nil => simp [colIndex] at h
  | cons a as ih =>
    unfold colIndex at h
    by_cases hac : a = c
    · rw [hac]; exact List.mem_cons_self c as
    · rw [if_neg hac] at h
      cases hci : colIndex as c with
      | none => rw [hci] at h; simp at h
      | some j => exact List.mem_cons_of_mem a (ih j hci)

/-- Auxiliary: a non-null cell read means the column is present. -/
theorem cellAt_some_mem (cols : List String) (row : List (Option ℚ)) (c : String)
    (v : ℚ) (h : cellAt cols row c = some v) : c ∈ cols := by
  unfold cellAt at h
  cases hci : colIndex cols c with
  | none => rw [hci] at h; simp at h
  | some i => exact colIndex_mem cols c i hci

/-- Auxiliary: pct-change of a one-element series is a single null. -/
theorem pct_pad_singleton (c : Option ℚ) : pct_change_pad [c] = [none] := by
  cases c <;> rfl

/-- Auxiliary: the first entry of the pct-change of a two-element series is
null. -/
theorem pct_pad_pair_first (c1 c2 : Option ℚ) :
    (pct_change_pad [c1, c2]).getD 0 none = none := by
  cases c1 <;> cases c2 <;> simp [pct_change_pad, padForward, pctStep]

/-- Auxiliary: the second entry of the pct-change of a two-element series
whose first element is non-null and nonzero is non-null. -/
theorem pct_pad_pair_second (a : ℚ) (ha : a ≠ 0) (c2 : Option ℚ) :
    ((pct_change_pad [some a, c2]).getD 1 none).isSome = true := by
  cases c2 <;> simp [pct_change_pad, padForward, pctStep, ha]

/-- Auxiliary: no growth metric name collides with the time columns. -/
theorem growth_name_not_time (gm : String × String) (h : gm ∈ growth_mappings) :
    gm.1 ≠ "Year" ∧ gm.1 ≠ "Quarter" := by
  simp only [growth_mappings, List.mem_cons, List.not_mem_nil, or_false] at h
  rcases h with h | h | h | h | h <;> rw [h] <;> exact ⟨by decide, by decide⟩

/-- C4 amended: provided at least one of the five growth source metrics is
a column of the input, a single-period dataset produces an empty Growth
Rate category; a two-period dataset (with its two distinct years and no
quarter column) produces at most one growth record, always attached to the
later period, and exactly one when some source metric has a non-null,
nonzero value in the earlier period; rows whose growth columns are all null
are dropped.  Without any source metric column the mask is skipped and the
records survive, which is what the counterexample exhibits. -/
theorem claim_C4_growth_amended :
    (∀ (df : GTable) (period : String) (r : List (Option ℚ)),
      df.rows = [r] →
      (growth_mappings.filter fun gm => gm.2 ∈ df.cols) ≠ [] →
      _compute_growth_rates df period = []) ∧
    (∀ (df : GTable) (period : String) (r1 r2 : List (Option ℚ)) (y1 y2 : ℚ),
      df.rows = [r1, r2] →
      "quarter" ∉ df.cols → "Quarter" ∉ df.cols →
      cellAt df.cols r1 (yearColOf df.cols) = some y1 →
      cellAt df.cols r2 (yearColOf df.cols) = some y2 →
      y1 < y2 →
      (growth_mappings.filter fun gm => gm.2 ∈ df.cols) ≠ [] →
      (∀ rec ∈ _compute_growth_rates df period, ("Year", some y2) ∈ rec) ∧
      (_compute_growth_rates df period).length ≤ 1 ∧
      ((∃ gm ∈ growth_mappings, gm.2 ∈ df.cols ∧
          ∃ a, cellAt df.cols r1 gm.2 = some a ∧ a ≠ 0) →
        (_compute_growth_rates df period).length = 1)) := by
  constructor
  · intro df period r hrows hactive
    unfold _compute_growth_rates
    rw [hrows, if_neg (by simp)]
    by_cases hyc : yearColOf df.cols ∈ df.cols
    · rw [if_pos hyc]
      unfold growthFiltered
      have hne : ((growth_mappings.filter fun gm => gm.2 ∈ df.cols).isEmpty) = false := by
        cases hF : growth_mappings.filter fun gm => gm.2 ∈ df.cols with
        | nil => exact absurd hF hactive
        | cons a as => rfl
      rw [hne, if_neg (by simp)]
      apply List.filter_eq_nil_iff.mpr
      intro rec hrec
      have hsort : sortAsc
          (growthRowLt df.cols
            (period == "quarter" && (quarterColOf df.cols ∈ df.cols : Bool)))
          ([r] : List (List (Option ℚ))) = [r] := rfl
      have hr1 : List.range 1 = [0] := by decide
      simp only [growthRecs, hrows, hsort, List.length_cons, List.length_nil,
        hr1, List.map_cons, List.map_nil, List.mem_singleton,
        List.getD_cons_zero] at hrec
      rw [hrec]
      simp only [Bool.not_eq_true]
      unfold growthRowKeep
      rw [List.any_eq_false]
      intro kv hkv
      obtain ⟨hkvmem, hkvpred⟩ := List.mem_filter.mp hkv
      rcases List.mem_cons.mp hkvmem with hkv1 | hkvrest
      · rw [hkv1] at hkvpred; simp at hkvpred
      · rcases List.mem_append.mp hkvrest with hkvq | hkvmap
        · split at hkvq
          · have hq : kv = ("Quarter", cellAt df.cols r (quarterColOf df.cols)) := by
              simpa using hkvq
            rw [hq] at hkvpred; simp at hkvpred
          · simp at hkvq
        · obtain ⟨gc, hgc, hkveq⟩ := List.mem_map.mp hkvmap
          simp only [growthCols, List.mem_map] at hgc
          obtain ⟨gm, hgm, hgceq⟩ := hgc
          rw [← hkveq, ← hgceq]
          simp [pct_pad_singleton]
    · rw [if_neg hyc]
  · intro df period r1 r2 y1 y2 hrows hq1 hq2 hy1 hy2 hylt hactive
    have hyc : yearColOf df.cols ∈ df.cols := cellAt_some_mem _ _ _ _ hy1
    have huq : ((quarterColOf df.cols ∈ df.cols : Bool)) = false := by
      simp only [quarterColOf, if_neg hq1]
      exact decide_eq_false hq2
    have hu : (period == "quarter" && (quarterColOf df.cols ∈ df.cols : Bool)) = false := by
      rw [huq, Bool.and_false]
    have hltf : growthRowLt df.cols
        (period == "quarter" && (quarterColOf df.cols ∈ df.cols : Bool)) r2 r1 = false := by
      unfold growthRowLt
      rw [hy1, hy2, hu]
      have hnl : ¬ (y2 < y1) := not_lt.mpr (le_of_lt hylt)
      simp [cellLt, hnl]
    have hsort : sortAsc
        (growthRowLt df.cols
          (period == "quarter" && (quarterColOf df.cols ∈ df.cols : Bool))) df.rows =
        [r1, r2] := by
      rw [hrows]
      simp [sortAsc, insertAsc, hltf]
    have hsort2 : sortAsc (growthRowLt df.cols false) df.rows = [r1, r2] := by
      rw [← hu]; exact hsort
    have hrecs : growthRecs df
        (period == "quarter" && (quarterColOf df.cols ∈ df.cols : Bool)) =
        [("Year", some y1) ::
          (growthCols df.cols [r1, r2]).map (fun gc => (gc.1, gc.2.getD 0 none)),
         ("Year", some y2) ::
          (growthCols df.cols [r1, r2]).map (fun gc => (gc.1, gc.2.getD 1 none))] := by
      have hr2 : List.range 2 = [0, 1] := by decide
      simp only [growthRecs, hu, hsort2, List.length_cons, List.length_nil, hr2,
        List.map_cons, List.map_nil, List.getD_cons_zero, List.getD_cons_succ,
        List.getElem?_cons_zero, List.getElem?_cons_succ, Option.getD_some,
        Bool.false_eq_true, if_false, List.cons_append, List.nil_append, hy1, hy2]
    have hkeep0 : growthRowKeep
        (("Year", some y1) ::
          (growthCols df.cols [r1, r2]).map (fun gc => (gc.1, gc.2.getD 0 none))) = false := by
      unfold growthRowKeep
      rw [List.any_eq_false]
      intro kv hkv
      obtain ⟨hkvmem, hkvpred⟩ := List.mem_filter.mp hkv
      rcases List.mem_cons.mp hkvmem with hkv1 | hkvmap
      · rw [hkv1] at hkvpred; simp at hkvpred
      · obtain ⟨gc, hgc, hkveq⟩ := List.mem_map.mp hkvmap
        simp only [growthCols, List.mem_map] at hgc
        obtain ⟨gm, hgm, hgceq⟩ := hgc
        rw [← hkveq, ← hgceq]
        simp only [List.map_cons, List.map_nil]
        have hfirst := pct_pad_pair_first (cellAt df.cols r1 gm.2) (cellAt df.cols r2 gm.2)
        cases hp : pct_change_pad [cellAt df.cols r1 gm.2, cellAt df.cols r2 gm.2] with
        | nil => simp [hp]
        | cons p ps =>
          rw [hp, List.getD_cons_zero] at hfirst
          simp [hp, hfirst]
    have hresult : _compute_growth_rates df period =
        ([("Year", some y2) ::
          (growthCols df.cols [r1, r2]).map (fun gc => (gc.1, gc.2.getD 1 none))].filter
            growthRowKeep) := by
      unfold _compute_growth_rates
      rw [hrows, if_neg (by simp), if_pos hyc]
      unfold growthFiltered
      have hne : ((growth_mappings.filter fun gm => gm.2 ∈ df.cols).isEmpty) = false := by
        cases hF : growth_mappings.filter fun gm => gm.2 ∈ df.cols with
        | nil => exact absurd hF hactive
        | cons a as => rfl
      rw [hne, if_neg (by simp), hrecs]
      rw [List.filter_cons, hkeep0]
      simp
    refine ⟨?_, ?_, ?_⟩
    · intro rec hrec
      rw [hresult] at hrec
      have hmem := List.mem_of_mem_filter hrec
      rw [List.mem_singleton] at hmem
      rw [hmem]
      exact List.mem_cons_self _ _
    · rw [hresult, List.filter_cons]
      cases hk : growthRowKeep (("Year", some y2) ::
          (growthCols df.cols [r1, r2]).map (fun gc => (gc.1, gc.2.getD 1 none))) <;>
        simp
    · intro hex
      obtain ⟨gm, hgm, hgmcol, a, ha, hanz⟩ := hex
      rw [hresult, List.filter_cons]
      have hkeep1 : growthRowKeep (("Year", some y2) ::
          (growthCols df.cols [r1, r2]).map (fun gc => (gc.1, gc.2.getD 1 none))) = true := by
        unfold growthRowKeep
        rw [List.any_eq_true]
        refine ⟨(gm.1, ((pct_change_pad
            [cellAt df.cols r1 gm.2, cellAt df.cols r2 gm.2]).map
              (fun c => c.map fun v => v * 100)).getD 1 none), ?_, ?_⟩
        · rw [List.mem_filter]
          constructor
          · apply List.mem_cons_of_mem
            apply List.mem_map.mpr
            refine ⟨(gm.1, (pct_change_pad
                [cellAt df.cols r1 gm.2, cellAt df.cols r2 gm.2]).map
                  (fun c => c.map fun v => v * 100)), ?_, rfl⟩
            simp only [growthCols, List.mem_map]
            refine ⟨gm, List.mem_filter.mpr ⟨hgm, by simpa using hgmcol⟩, by simp⟩
          · simp [growth_name_not_time gm hgm]
        · rw [ha]
          have hsecond := pct_pad_pair_second a hanz (cellAt df.cols r2 gm.2)
          cases hp : pct_change_pad [some a, cellAt df.cols r2 gm.2] with
          | nil => rw [hp] at hsecond; simp at hsecond
          | cons p ps =>
            cases ps with
            | nil => rw [hp] at hsecond; simp at hsecond
            | cons p2 ps2 =>
              rw [hp, List.getD_cons_succ, List.getD_cons_zero] at hsecond
              simp only [List.map_cons, List.getD_cons_succ, List.getD_cons_zero]
              cases p2 with
              | none => simp at hsecond
              | some v => simp
      rw [hkeep1]
      simp

/-- C4 witness: with a Net Sales column, the one-period table gives an
empty category, and the two-period table (2020 then 2021) gives exactly one
record attached to 2021. -/
theorem claim_C4_growth_amended_witness :
    _compute_growth_rates ⟨["year", "Net Sales"], [[some 2020, some 100]]⟩ "year" = [] ∧
    ((∀ rec ∈ _compute_growth_rates
        ⟨["year", "Net Sales"], [[some 2020, some 100], [some 2021, some 150]]⟩ "year",
        ("Year", some (2021 : ℚ)) ∈ rec) ∧
      (_compute_growth_rates
        ⟨["year", "Net Sales"],
          [[some 2020, some 100], [some 2021, some 150]]⟩ "year").length ≤ 1 ∧
      ((∃ gm ∈ growth_mappings, gm.2 ∈ (["year", "Net Sales"] : List String) ∧
          ∃ a, cellAt ["year", "Net Sales"] [some 2020, some 100] gm.2 = some a ∧ a ≠ 0) →
        (_compute_growth_rates
          ⟨["year", "Net Sales"],
            [[some 2020, some 100], [some 2021, some 150]]⟩ "year").length = 1)) :=
  ⟨claim_C4_growth_amended.1 ⟨["year", "Net Sales"], [[some 2020, some 100]]⟩ "year"
     [some 2020, some 100] rfl (by decide),
   claim_C4_growth_amended.2
     ⟨["year", "Net Sales"], [[some 2020, some 100], [some 2021, some 150]]⟩ "year"
     [some 2020, some 100] [some 2021, some 150] 2020 2021 rfl
     (by decide) (by decide) (by decide) (by decide) (by decide) (by decide)⟩

/-- Membership in a stable insertion. -/
theorem insertAsc_mem {α : Type} (lt : α → α → Bool) (x a : α) (l : List α) :
    a ∈ insertAsc lt x l ↔ a = x ∨ a ∈ l := by
  induction l with
  | nil => simp [insertAsc]
  | cons y ys ih =>
    unfold insertAsc
    by_cases h : lt y x
    · rw [if_pos h]
      simp only [List.mem_cons, ih]
      tauto
    · rw [if_neg h]
      simp only [List.mem_cons]

/-- Membership is preserved by the stable sort. -/
theorem sortAsc_mem {α : Type} (lt : α → α → Bool) (a : α) (l : List α) :
    a ∈ sortAsc lt l ↔ a ∈ l := by
  induction l with
  | nil => simp [sortAsc]
  | cons x xs ih =>
    unfold sortAsc
    rw [insertAsc_mem, ih, List.mem_cons]

/-- A stable insertion into a duplicate-free list of which the element is
not a member stays duplicate-free. -/
theorem insertAsc_nodup {α : Type} (lt : α → α → Bool) (x : α) (l : List α)
    (hx : x ∉ l) (hl : l.Nodup) : (insertAsc lt x l).Nodup := by
  induction l with
  | nil => simp [insertAsc]
  | cons y ys ih =>
    rw [List.nodup_cons] at hl
    obtain ⟨hy, hys⟩ := hl
    have hxy : x ≠ y := fun h => hx (h ▸ List.mem_cons_self y ys)
    have hxys : x ∉ ys := fun h => hx (List.mem_cons_of_mem y h)
    unfold insertAsc
    by_cases h : lt y x
    · rw [if_pos h]
      rw [List.nodup_cons]
      refine ⟨?_, ih hxys hys⟩
      rw [insertAsc_mem]
      rintro (h1 | h1)
      · exact hxy h1.symm
      · exact hy h1
    · rw [if_neg h]
      rw [List.nodup_cons, List.nodup_cons]
      exact ⟨by simp [hxy, hxys], hy, hys⟩

/-- The stable sort preserves freedom from duplicates. -/
theorem sortAsc_nodup {α : Type} (lt : α → α → Bool) (l : List α)
    (h : l.Nodup) : (sortAsc lt l).Nodup := by
  induction l with
  | nil => simp [sortAsc]
  | cons x xs ih =>
    rw [List.nodup_cons] at h
    obtain ⟨hx, hxs⟩ := h
    unfold sortAsc
    exact insertAsc_nodup lt x _ (fun hc => hx ((sortAsc_mem lt x xs).mp hc)) (ih hxs)

/-- Sorting a list already sorted (no element strictly before its
predecessors) is the identity. -/
theorem sortAsc_sorted {α : Type} (lt : α → α → Bool) (l : List α)
    (h : l.Pairwise fun a b => lt b a = false) : sortAsc lt l = l := by
  induction l with
  | nil => rfl
  | cons x xs ih =>
    rw [List.pairwise_cons] at h
    obtain ⟨hx, hxs⟩ := h
    unfold sortAsc
    rw [ih hxs]
    cases xs with
    | nil => rfl
    | cons y ys =>
      unfold insertAsc
      rw [if_neg (by rw [hx y (List.mem_cons_self y ys)]; simp)]

/-- First-seen dedup membership. -/
theorem dedupFirstAux_mem (l : List String) :
    ∀ (seen : List String) (a : String),
      a ∈ dedupFirstAux seen l ↔ a ∈ l ∧ a ∉ seen := by
  induction l with
  | nil => intro seen a; simp [dedupFirstAux]
  | cons x xs ih =>
    intro seen a
    unfold dedupFirstAux
    by_cases h : x ∈ seen
    · rw [if_pos h, ih]
      constructor
      · rintro ⟨h1, h2⟩
        exact ⟨List.mem_cons_of_mem x h1, h2⟩
      · rintro ⟨h1, h2⟩
        rcases List.mem_cons.mp h1 with h1 | h1
        · exact absurd (h1 ▸ h) h2
        · exact ⟨h1, h2⟩
    · rw [if_neg h]
      by_cases hax : a = x
      · subst hax
        simp [h]
      · simp [List.mem_cons, hax, ih]

/-- First-seen dedup produces no duplicates. -/
theorem dedupFirstAux_nodup (l : List String) :
    ∀ (seen : List String), (dedupFirstAux seen l).Nodup := by
  induction l with
  | nil => intro seen; simp [dedupFirstAux]
  | cons x xs ih =>
    intro seen
    unfold dedupFirstAux
    by_cases h : x ∈ seen
    · rw [if_pos h]; exact ih seen
    · rw [if_neg h]
      rw [List.nodup_cons]
      refine ⟨?_, ih (x :: seen)⟩
      rw [dedupFirstAux_mem]
      rintro ⟨h1, h2⟩
      exact h2 (List.mem_cons_self x seen)

/-- The last element of a list is a member. -/
theorem getLastMem {α : Type} : ∀ (l : List α) (a : α), l.getLast? = some a → a ∈ l
  | [], a, h => by simp [List.getLast?] at h
  | [x], a, h => by
    simp only [List.getLast?_singleton, Option.some.injEq] at h
    simp [h]
  | x :: y :: ys, a, h => by
    rw [List.getLast?_cons_cons] at h
    exact List.mem_cons_of_mem x (getLastMem (y :: ys) a h)

/-- A nonempty list has a last element. -/
theorem getLast_isSome {α : Type} : ∀ (l : List α), l ≠ [] → l.getLast?.isSome = true
  | [], h => absurd rfl h
  | [x], _ => rfl
  | x :: y :: ys, _ => by
    rw [List.getLast?_cons_cons]
    exact getLast_isSome (y :: ys) (List.cons_ne_nil y ys)

/-- Every contribution of a category table carries a label of one of its
prepared rows. -/
theorem tableEntry_period_mem (tp : String) (mp : ℕ) (tbl : CTable)
    (e : String × String × ℚ) (h : e ∈ tableEntryList tp mp tbl) :
    e.1 ∈ (prepTable tp mp tbl).map (rowLabel tp) := by
  unfold tableEntryList at h
  obtain ⟨r, hr, he⟩ := List.mem_flatMap.mp h
  obtain ⟨mv, _, heq⟩ := List.mem_map.mp he
  rw [← heq]
  exact List.mem_map.mpr ⟨r, hr, rfl⟩

/-- Every tagged contribution of the batch has its period label in the
collected period-label list. -/
theorem allEntries_period_mem (tp : String) (mp : ℕ)
    (td : List (String × Option (List (String × CTable))))
    (e : String × String × String × ℚ) (h : e ∈ allEntries tp mp td) :
    e.2.1 ∈ allPeriods tp mp td := by
  unfold allEntries at h
  obtain ⟨t, ht, he⟩ := List.mem_flatMap.mp h
  cases ho : t.2 with
  | none => rw [ho] at he; simp at he
  | some cats =>
    rw [ho] at he
    obtain ⟨e2, he2, heq⟩ := List.mem_map.mp he
    unfold allPeriods
    apply List.mem_flatMap.mpr
    refine ⟨t, ht, ?_⟩
    rw [ho]
    unfold tickerEntryList at he2
    obtain ⟨cat, hcat, hce⟩ := List.mem_flatMap.mp he2
    unfold tickerPeriodList
    apply List.mem_flatMap.mpr
    refine ⟨cat, hcat, ?_⟩
    have := tableEntry_period_mem tp mp cat.2 e2 hce
    rw [← heq]
    exact this

/-- Every tagged contribution is tagged with a ticker of the batch. -/
theorem allEntries_tag_mem (tp : String) (mp : ℕ)
    (td : List (String × Option (List (String × CTable))))
    (e : String × String × String × ℚ) (h : e ∈ allEntries tp mp td) :
    e.1 ∈ td.map Prod.fst := by
  unfold allEntries at h
  obtain ⟨t, ht, he⟩ := List.mem_flatMap.mp h
  cases ho : t.2 with
  | none => rw [ho] at he; simp at he
  | some cats =>
    rw [ho] at he
    obtain ⟨e2, _, heq⟩ := List.mem_map.mp he
    rw [← heq]
    exact List.mem_map.mpr ⟨t, ht, rfl⟩

/-- The stored value for (ticker, period, metric) exists exactly when some
write for that triple happened. -/
theorem tpmLookup_isSome_iff (entries : List (String × String × String × ℚ))
    (t p m : String) :
    (tpmLookup entries t p m).isSome = true ↔ ∃ v, (t, p, m, v) ∈ entries := by
  unfold tpmLookup
  constructor
  · intro h
    cases hL : (entries.filter fun e => e.1 == t && e.2.1 == p && e.2.2.1 == m).getLast? with
    | none => rw [hL] at h; simp at h
    | some e =>
      obtain ⟨hm, hp⟩ := List.mem_filter.mp (getLastMem _ e hL)
      obtain ⟨a, b, c, v⟩ := e
      simp only [Bool.and_eq_true, beq_iff_eq] at hp
      obtain ⟨⟨rfl, rfl⟩, rfl⟩ := hp
      exact ⟨v, hm⟩
  · rintro ⟨v, hv⟩
    have hmem : (t, p, m, v) ∈
        entries.filter fun e => e.1 == t && e.2.1 == p && e.2.2.1 == m :=
      List.mem_filter.mpr ⟨hv, by simp⟩
    have hne : (entries.filter fun e => e.1 == t && e.2.1 == p && e.2.2.1 == m) ≠ [] :=
      List.ne_nil_of_mem hmem
    cases hL : (entries.filter fun e => e.1 == t && e.2.1 == p && e.2.2.1 == m).getLast? with
    | none =>
      have := getLast_isSome _ hne
      rw [hL] at this
      simp at this
    | some e => simp [hL]

/-- Looking a ticker up ignores entries tagged with other tickers. -/
theorem tpmLookup_restrict (entries : List (String × String × String × ℚ))
    (t p m : String) :
    tpmLookup entries t p m =
      tpmLookup (entries.filter fun e => e.1 == t) t p m := by
  unfold tpmLookup
  rw [List.filter_filter]
  have hcong : ∀ e ∈ entries,
      (e.1 == t && e.2.1 == p && e.2.2.1 == m) =
        ((e.1 == t && e.2.1 == p && e.2.2.1 == m) && e.1 == t) := by
    intro e _
    by_cases h : (e.1 == t) = true
    · simp [h]
    · simp [h]
  rw [List.filter_congr hcong]

/-- Unfolding of the tagged contributions over the first ticker. -/
theorem allEntries_cons (tp : String) (mp : ℕ)
    (hd : String × Option (List (String × CTable)))
    (tl : List (String × Option (List (String × CTable)))) :
    allEntries tp mp (hd :: tl) =
      (match hd.2 with
        | none => []
        | some cats => (tickerEntryList tp mp cats).map fun e => (hd.1, e)) ++
      allEntries tp mp tl := by
  unfold allEntries
  rw [List.flatMap_cons]

/-- Contributions tagged with a ticker that occurs once in the batch with a
dataset are exactly the contributions computed from that dataset alone:
other tickers cannot influence them. -/
theorem allEntries_filter_ticker (tp : String) (mp : ℕ)
    (td : List (String × Option (List (String × CTable)))) (t : String)
    (cats : List (String × CTable))
    (hmem : (t, some cats) ∈ td) (hcount : (td.map Prod.fst).count t = 1) :
    (allEntries tp mp td).filter (fun e => e.1 == t) =
      (tickerEntryList tp mp cats).map (fun e => (t, e)) := by
  induction td with
  | nil => simp at hmem
  | cons hd tl ih =>
    rw [allEntries_cons, List.filter_append]
    rcases List.mem_cons.mp hmem with heq | hmem2
    · have hhd1 : hd.1 = t := by rw [← heq]
      have hhd2 : hd.2 = some cats := by rw [← heq]
      have htl : t ∉ tl.map Prod.fst := by
        rw [List.map_cons, hhd1, List.count_cons_self] at hcount
        have h0 : (tl.map Prod.fst).count t = 0 := by omega
        exact List.count_eq_zero.mp h0
      have htlf : (allEntries tp mp tl).filter (fun e => e.1 == t) = [] := by
        apply List.filter_eq_nil_iff.mpr
        intro e he
        intro hc
        exact htl (eq_of_beq hc ▸ allEntries_tag_mem tp mp tl e he)
      rw [htlf, List.append_nil]
      simp only [hhd2, hhd1]
      apply List.filter_eq_self.mpr
      intro e he
      obtain ⟨e2, _, heq2⟩ := List.mem_map.mp he
      rw [← heq2]
      simp
    · have htmem : t ∈ tl.map Prod.fst :=
        List.mem_map.mpr ⟨(t, some cats), hmem2, rfl⟩
      have hne : hd.1 ≠ t := by
        intro hc
        rw [List.map_cons, hc, List.count_cons_self] at hcount
        have h0 : (tl.map Prod.fst).count t = 0 := by omega
        exact List.count_eq_zero.mp h0 htmem
      have hcount2 : (tl.map Prod.fst).count t = 1 := by
        rw [List.map_cons] at hcount
        rw [List.count_cons_of_ne (fun hc => hne hc.symm)] at hcount
        exact hcount
      cases ho : hd.2 with
      | none =>
        simp only [ho, List.filter_nil, List.nil_append]
        exact ih hmem2 hcount2
      | some c =>
        simp only [ho]
        have hsegf : (((tickerEntryList tp mp c).map fun e => (hd.1, e)).filter
            (fun e => e.1 == t)) = [] := by
          apply List.filter_eq_nil_iff.mpr
          intro e he
          obtain ⟨e2, _, heq2⟩ := List.mem_map.mp he
          rw [← heq2]
          simp [hne]
        rw [hsegf, List.nil_append]
        exact ih hmem2 hcount2

/-- A produced record carries the period it was produced for. -/
theorem seriesCell_period (entries : List (String × String × String × ℚ))
    (compare : List String) (m p : String) (rec : PeriodRec)
    (h : seriesCell entries compare m p = some rec) : rec.period = p := by
  unfold seriesCell at h
  cases hc : compare.filterMap fun t => (tpmLookup entries t p m).map fun v => (t, some v) with
  | nil => rw [hc] at h; simp at h
  | cons v vs =>
    rw [hc] at h
    injection h with h1
    rw [← h1]

/-- A produced record has at least one ticker value. -/
theorem seriesCell_vals_ne_nil (entries : List (String × String × String × ℚ))
    (compare : List String) (m p : String) (rec : PeriodRec)
    (h : seriesCell entries compare m p = some rec) : rec.vals ≠ [] := by
  unfold seriesCell at h
  cases hc : compare.filterMap fun t => (tpmLookup entries t p m).map fun v => (t, some v) with
  | nil => rw [hc] at h; simp at h
  | cons v vs =>
    rw [hc] at h
    injection h with h1
    rw [← h1]
    simp

/-- A record is produced at a period exactly when some compared ticker has
a stored value there. -/
theorem seriesCell_isSome_iff (entries : List (String × String × String × ℚ))
    (compare : List String) (m p : String) :
    (seriesCell entries compare m p).isSome = true ↔
      ∃ t ∈ compare, (tpmLookup entries t p m).isSome = true := by
  unfold seriesCell
  cases hc : compare.filterMap fun t => (tpmLookup entries t p m).map fun v => (t, some v) with
  | nil =>
    simp only [Option.isSome_none, Bool.false_eq_true, false_iff]
    rintro ⟨t, ht, hlk⟩
    cases hv : tpmLookup entries t p m with
    | none => rw [hv] at hlk; simp at hlk
    | some v =>
      have : (t, some v) ∈
          compare.filterMap fun t => (tpmLookup entries t p m).map fun v => (t, some v) :=
        List.mem_filterMap.mpr ⟨t, ht, by rw [hv]; rfl⟩
      rw [hc] at this
      simp at this
  | cons v vs =>
    simp only [Option.isSome_some, true_iff]
    have hv : v ∈ compare.filterMap fun t => (tpmLookup entries t p m).map fun v => (t, some v) := by
      rw [hc]; exact List.mem_cons_self v vs
    obtain ⟨t, ht, hmap⟩ := List.mem_filterMap.mp hv
    cases hlk : tpmLookup entries t p m with
    | none => rw [hlk] at hmap; simp at hmap
    | some w => exact ⟨t, ht, by rw [hlk]; rfl⟩

/-- A compared ticker with a stored value at a period appears, with that
value, in the record the series emits for that period. -/
theorem seriesFor_emits (entries : List (String × String × String × ℚ))
    (sortedPeriods compare : List String) (m p t : String) (v : ℚ)
    (hp : p ∈ sortedPeriods) (ht : t ∈ compare)
    (hv : tpmLookup entries t p m = some v) :
    ∃ rec ∈ seriesFor entries sortedPeriods compare m,
      rec.period = p ∧ (t, some v) ∈ rec.vals := by
  have hvals : (t, some v) ∈
      compare.filterMap fun s => (tpmLookup entries s p m).map fun w => (s, some w) :=
    List.mem_filterMap.mpr ⟨t, ht, by rw [hv]; rfl⟩
  unfold seriesFor
  cases hc : compare.filterMap fun s => (tpmLookup entries s p m).map fun w => (s, some w) with
  | nil => rw [hc] at hvals; simp at hvals
  | cons a as =>
    refine ⟨⟨p, a :: as⟩, ?_, rfl, by rw [hc] at hvals; exact hvals⟩
    apply List.mem_filterMap.mpr
    refine ⟨p, hp, ?_⟩
    unfold seriesCell
    rw [hc]

/-- Counting records by period in a series built over duplicate-free
periods: one when the period is present and produces a record, else none. -/
theorem filterMap_count_period (l : List String) (f : String → Option PeriodRec)
    (hf : ∀ p rec, f p = some rec → rec.period = p) (hnd : l.Nodup) (p : String) :
    ((l.filterMap f).filter fun rec => rec.period == p).length =
      if p ∈ l ∧ (f p).isSome = true then 1 else 0 := by
  induction l with
  | nil => simp
  | cons a as ih =>
    rw [List.nodup_cons] at hnd
    obtain ⟨hna, hnd2⟩ := hnd
    rw [List.filterMap_cons]
    cases hfa : f a with
    | none =>
      rw [ih hnd2]
      by_cases hpa : p = a
      · subst hpa
        simp [hfa, hna]
      · have hiff : (p ∈ a :: as ∧ (f p).isSome = true) ↔
            (p ∈ as ∧ (f p).isSome = true) := by
          simp [List.mem_cons, hpa]
        rw [if_congr hiff rfl rfl]
    | some rec =>
      have hra : rec.period = a := hf a rec hfa
      rw [List.filter_cons]
      by_cases hpa : p = a
      · subst hpa
        rw [hra]
        simp only [beq_self_eq_true, if_true]
        rw [List.length_cons, ih hnd2]
        simp [hna, hfa]
      · have hbeq : (rec.period == p) = false := by
          rw [hra]
          exact beq_eq_false_iff_ne.mpr fun h => hpa h.symm
        rw [hbeq]
        simp only [Bool.false_eq_true, if_false]
        rw [ih hnd2]
        have hiff : (p ∈ a :: as ∧ (f p).isSome = true) ↔
            (p ∈ as ∧ (f p).isSome = true) := by
          simp [List.mem_cons, hpa]
        rw [if_congr hiff rfl rfl]

/-- C5: in the built historical data, each metric's series has exactly one
record per period in which at least one compared ticker has a stored
(non-null) value for that metric, no record at all for periods with zero
contributors, and every emitted record carries at least one ticker value. -/
theorem claim_C5_series_coverage :
    ∀ (timePeriod : String) (compare metrics : List String)
      (tickerData : List (String × Option (List (String × CTable))))
      (m : String) (mdata : List PeriodRec),
      (m, mdata) ∈ _extract_historical_data timePeriod compare metrics tickerData →
      (∀ rec ∈ mdata, rec.vals ≠ []) ∧
      (∀ p : String,
        (mdata.filter fun rec => rec.period == p).length =
          if ∃ t ∈ compare,
              (tpmLookup (allEntries timePeriod (maxPeriodsOf timePeriod) tickerData)
                t p m).isSome = true
          then 1 else 0) := by
  intro tp compare metrics td m mdata hmem
  unfold _extract_historical_data at hmem
  obtain ⟨m0, _, heq⟩ := List.mem_map.mp hmem
  rw [Prod.mk.injEq] at heq
  obtain ⟨rfl, hser⟩ := heq
  constructor
  · intro rec hrec
    rw [← hser] at hrec
    unfold seriesFor at hrec
    obtain ⟨p, _, hcell⟩ := List.mem_filterMap.mp hrec
    exact seriesCell_vals_ne_nil _ _ _ _ _ hcell
  · intro p
    rw [← hser]
    unfold seriesFor
    have hnd : (sortPeriods tp (dedupFirst (allPeriods tp (maxPeriodsOf tp) td))).Nodup :=
      sortAsc_nodup _ _ (dedupFirstAux_nodup _ [])
    rw [filterMap_count_period _ _ (fun q rec h => seriesCell_period _ _ _ q rec h) hnd p]
    have hiff : (p ∈ sortPeriods tp (dedupFirst (allPeriods tp (maxPeriodsOf tp) td)) ∧
        (seriesCell (allEntries tp (maxPeriodsOf tp) td) compare m0 p).isSome = true) ↔
        (∃ t ∈ compare,
          (tpmLookup (allEntries tp (maxPeriodsOf tp) td) t p m0).isSome = true) := by
      constructor
      · rintro ⟨_, h2⟩
        exact (seriesCell_isSome_iff _ _ _ _).mp h2
      · intro hex
        refine ⟨?_, (seriesCell_isSome_iff _ _ _ _).mpr hex⟩
        obtain ⟨t, _, hlk⟩ := hex
        obtain ⟨v, hv⟩ := (tpmLookup_isSome_iff _ _ _ _).mp hlk
        have hpm := allEntries_period_mem tp (maxPeriodsOf tp) td (t, p, m0, v) hv
        unfold sortPeriods
        rw [sortAsc_mem]
        unfold dedupFirst
        rw [dedupFirstAux_mem]
        exact ⟨hpm, by simp⟩
    rw [if_congr hiff rfl rfl]

/-- C5 witness: a one-ticker yearly batch with one value produces exactly
one record in the period 2020 and none elsewhere. -/
theorem claim_C5_series_coverage_witness :
    ((("ROE (%)"),
        [PeriodRec.mk "2020" [("AAA", some 5)]]) ∈
      _extract_historical_data "year" ["AAA"] ["ROE (%)"]
        [("AAA", some [("Profitability", CTable.mk false [CRow.mk 2020 0 [("ROE (%)", some 5)]])])]) ∧
    (∀ rec ∈ [PeriodRec.mk "2020" [("AAA", some (5 : ℚ))]], rec.vals ≠ []) ∧
    (∀ p : String,
      ([PeriodRec.mk "2020" [("AAA", some (5 : ℚ))]].filter
          fun rec => rec.period == p).length =
        if ∃ t ∈ ["AAA"],
            (tpmLookup (allEntries "year" (maxPeriodsOf "year")
              [("AAA", some [("Profitability", CTable.mk false [CRow.mk 2020 0 [("ROE (%)", some 5)]])])])
              t p "ROE (%)").isSome = true
        then 1 else 0) :=
  ⟨by decide,
   (claim_C5_series_coverage "year" ["AAA"] ["ROE (%)"]
      [("AAA", some [("Profitability", CTable.mk false [CRow.mk 2020 0 [("ROE (%)", some 5)]])])]
      "ROE (%)" [PeriodRec.mk "2020" [("AAA", some 5)]] (by decide)).1,
   (claim_C5_series_coverage "year" ["AAA"] ["ROE (%)"]
      [("AAA", some [("Profitability", CTable.mk false [CRow.mk 2020 0 [("ROE (%)", some 5)]])])]
      "ROE (%)" [PeriodRec.mk "2020" [("AAA", some 5)]] (by decide)).2⟩

/-- C6: the aligner truncates per ticker and per category, before the
cross-ticker union: a quarterly table already sorted descending is cut to
its first maxPeriods rows (so a long history keeps only its latest
periods), a table with at most maxPeriods rows is kept whole, and a
once-occurring ticker's stored contributions are computed from its own
dataset alone, unaffected by every other ticker in the batch. -/
theorem claim_C6_per_ticker_truncation :
    (∀ (tbl : CTable) (maxPeriods : ℕ),
      tbl.hasQuarter = true →
      tbl.rows.Pairwise (fun a b => crowDescLt true b a = false) →
      prepTable "quarter" maxPeriods tbl = tbl.rows.take maxPeriods) ∧
    (∀ (tbl : CTable) (maxPeriods : ℕ),
      tbl.hasQuarter = true →
      tbl.rows.Pairwise (fun a b => crowDescLt true b a = false) →
      tbl.rows.length ≤ maxPeriods →
      prepTable "quarter" maxPeriods tbl = tbl.rows) ∧
    (∀ (tp : String) (mp : ℕ)
      (td : List (String × Option (List (String × CTable))))
      (t : String) (cats : List (String × CTable)),
      (t, some cats) ∈ td → (td.map Prod.fst).count t = 1 →
      ∀ p m : String,
        tpmLookup (allEntries tp mp td) t p m =
          tpmLookup ((tickerEntryList tp mp cats).map fun e => (t, e)) t p m) := by
  refine ⟨?_, ?_, ?_⟩
  · intro tbl maxPeriods hq hsorted
    unfold prepTable
    by_cases hE : tbl.rows.isEmpty
    · rw [if_pos hE]
      rw [List.isEmpty_iff] at hE
      rw [hE, List.take_nil]
    · rw [if_neg hE]
      have hqq : ("quarter" == "quarter") = true := rfl
      rw [hqq, if_pos rfl, hq, if_pos rfl, sortAsc_sorted _ _ hsorted]
  · intro tbl maxPeriods hq hsorted hlen
    unfold prepTable
    by_cases hE : tbl.rows.isEmpty
    · rw [if_pos hE]
      rw [List.isEmpty_iff] at hE
      rw [hE]
    · rw [if_neg hE]
      have hqq : ("quarter" == "quarter") = true := rfl
      rw [hqq, if_pos rfl, hq, if_pos rfl, sortAsc_sorted _ _ hsorted]
      exact List.take_of_length_le hlen
  · intro tp mp td t cats hmem hcount p m
    rw [tpmLookup_restrict, allEntries_filter_ticker tp mp td t cats hmem hcount]

/-- C6 witness: the ticker with 12 quarters is cut to its latest 8, the
ticker with 3 keeps all of them, and the first ticker's stored values in
the two-ticker batch equal those computed from its own data alone. -/
theorem claim_C6_per_ticker_truncation_witness :
    ((CTable.mk true witARows).rows.Pairwise (fun a b => crowDescLt true b a = false) ∧
      prepTable "quarter" 8 (CTable.mk true witARows) = witARows.take 8) ∧
    (witBRows.length ≤ 8 ∧
      prepTable "quarter" 8 (CTable.mk true witBRows) = witBRows) ∧
    tpmLookup (allEntries "quarter" 8
        [("AAA", some [("Profitability", CTable.mk true witARows)]),
         ("BBB", some [("Profitability", CTable.mk true witBRows)])]) "AAA" "Q4 2024" "ROE (%)" =
      tpmLookup ((tickerEntryList "quarter" 8
          [("Profitability", CTable.mk true witARows)]).map
        fun e => ("AAA", e)) "AAA" "Q4 2024" "ROE (%)" :=
  ⟨⟨by decide, claim_C6_per_ticker_truncation.1 (CTable.mk true witARows) 8 rfl (by decide)⟩,
   ⟨by decide,
    claim_C6_per_ticker_truncation.2.1 (CTable.mk true witBRows) 8 rfl (by decide) (by decide)⟩,
   claim_C6_per_ticker_truncation.2.2 "quarter" 8
     [("AAA", some [("Profitability", CTable.mk true witARows)]),
      ("BBB", some [("Profitability", CTable.mk true witBRows)])]
     "AAA" [("Profitability", CTable.mk true witARows)]
     (by decide) (by decide) "Q4 2024" "ROE (%)"⟩

/-- A ticker that survives screening with a dataset had a non-failed
outcome. -/
theorem batchTickerData_some (outcomes : List (String × FetchOutcome)) (x : String)
    (c : List (String × CTable)) (h : (x, some c) ∈ batchTickerData outcomes) :
    ∃ o, (x, o) ∈ outcomes ∧ failedOutcome o = false := by
  unfold batchTickerData at h
  obtain ⟨oc, hoc, heq⟩ := List.mem_map.mp h
  obtain ⟨a, b⟩ := oc
  rw [Prod.mk.injEq] at heq
  obtain ⟨h1, h2⟩ := heq
  cases b with
  | exc e => simp at h2
  | res hasErr cats =>
    cases hasErr with
    | true => simp at h2
    | false =>
      refine ⟨FetchOutcome.res false cats, ?_, rfl⟩
      rw [← h1]
      exact hoc

/-- Every tagged contribution comes from a batch member that has a
dataset. -/
theorem allEntries_tag_dataset (tp : String) (mp : ℕ)
    (td : List (String × Option (List (String × CTable))))
    (e : String × String × String × ℚ) (h : e ∈ allEntries tp mp td) :
    ∃ cats, (e.1, some cats) ∈ td := by
  unfold allEntries at h
  obtain ⟨x, hx, he⟩ := List.mem_flatMap.mp h
  obtain ⟨a, b⟩ := x
  cases b with
  | none => simp at he
  | some cats =>
    obtain ⟨e2, _, heq⟩ := List.mem_map.mp he
    refine ⟨cats, ?_⟩
    rw [← heq]
    exact hx

/-- Screening does not change the ticker order. -/
theorem batchTickerData_map_fst (outcomes : List (String × FetchOutcome)) :
    (batchTickerData outcomes).map Prod.fst = outcomes.map Prod.fst := by
  unfold batchTickerData
  rw [List.map_map]
  rfl

/-- C8: a failed ticker (raised exception or embedded error payload) is
excluded from the aggregation and only that ticker: no record of any
metric's merged series mentions it, while every non-failed, once-occurring
compared ticker still has a record at each period it contributes to, with
its value; the embedding is a total function, so no exception escapes. -/
theorem claim_C8_batch_isolation :
    ∀ (tp : String) (compare metrics : List String)
      (outcomes : List (String × FetchOutcome)) (f : String),
      (∀ o, (f, o) ∈ outcomes → failedOutcome o = true) →
      (∀ m mdata, (m, mdata) ∈ fetch_historical_data tp compare metrics outcomes →
        ∀ rec ∈ mdata, ∀ v : Option ℚ, (f, v) ∈ rec.vals → False) ∧
      (∀ t cats, (t, FetchOutcome.res false cats) ∈ outcomes →
        (outcomes.map Prod.fst).count t = 1 → t ∈ compare →
        ∀ m ∈ metrics, ∀ (p : String) (v : ℚ),
          tpmLookup ((tickerEntryList tp (maxPeriodsOf tp) cats).map fun e => (t, e))
            t p m = some v →
          ∃ mdata, (m, mdata) ∈ fetch_historical_data tp compare metrics outcomes ∧
            ∃ rec ∈ mdata, rec.period = p ∧ (t, some v) ∈ rec.vals) := by
  intro tp compare metrics outcomes f hfail
  constructor
  · intro m mdata hmem rec hrec v hv
    unfold fetch_historical_data _extract_historical_data at hmem
    obtain ⟨m0, _, heq⟩ := List.mem_map.mp hmem
    rw [Prod.mk.injEq] at heq
    obtain ⟨rfl, hser⟩ := heq
    rw [← hser] at hrec
    unfold seriesFor at hrec
    obtain ⟨p, _, hcell⟩ := List.mem_filterMap.mp hrec
    unfold seriesCell at hcell
    cases hc : compare.filterMap fun s =>
        (tpmLookup (allEntries tp (maxPeriodsOf tp) (batchTickerData outcomes)) s p m0).map
          fun w => (s, some w) with
    | nil => rw [hc] at hcell; simp at hcell
    | cons a as =>
      rw [hc] at hcell
      injection hcell with h1
      have hv2 : (f, v) ∈ a :: as := by rw [← h1] at hv; exact hv
      rw [← hc] at hv2
      obtain ⟨t2, _, hmap⟩ := List.mem_filterMap.mp hv2
      cases hlk : tpmLookup (allEntries tp (maxPeriodsOf tp) (batchTickerData outcomes)) t2 p m0 with
      | none => rw [hlk] at hmap; simp at hmap
      | some w =>
        rw [hlk] at hmap
        simp only [Option.map_some', Option.some.injEq, Prod.mk.injEq] at hmap
        obtain ⟨hts, _⟩ := hmap
        subst hts
        obtain ⟨v2, hv2b⟩ := (tpmLookup_isSome_iff _ t2 p m0).mp (by rw [hlk]; rfl)
        obtain ⟨cats0, hcats0⟩ :=
          allEntries_tag_dataset tp (maxPeriodsOf tp) (batchTickerData outcomes) (t2, p, m0, v2) hv2b
        obtain ⟨o, ho, hno⟩ := batchTickerData_some outcomes t2 cats0 hcats0
        rw [hfail o ho] at hno
        exact absurd hno (by simp)
  · intro t cats hres hcount ht m hm p v hlk
    have hmemB : (t, some cats) ∈ batchTickerData outcomes := by
      unfold batchTickerData
      exact List.mem_map.mpr ⟨(t, FetchOutcome.res false cats), hres, rfl⟩
    have hcountB : ((batchTickerData outcomes).map Prod.fst).count t = 1 := by
      rw [batchTickerData_map_fst]
      exact hcount
    have hlkB : tpmLookup (allEntries tp (maxPeriodsOf tp) (batchTickerData outcomes)) t p m
        = some v := by
      rw [tpmLookup_restrict,
        allEntries_filter_ticker tp (maxPeriodsOf tp) (batchTickerData outcomes) t cats
          hmemB hcountB]
      exact hlk
    have hpmem : p ∈ sortPeriods tp
        (dedupFirst (allPeriods tp (maxPeriodsOf tp) (batchTickerData outcomes))) := by
      obtain ⟨v2, hv2⟩ := (tpmLookup_isSome_iff _ t p m).mp (by rw [hlkB]; rfl)
      have hpp := allEntries_period_mem tp (maxPeriodsOf tp) (batchTickerData outcomes)
        (t, p, m, v2) hv2
      unfold sortPeriods
      rw [sortAsc_mem]
      unfold dedupFirst
      rw [dedupFirstAux_mem]
      exact ⟨hpp, by simp⟩
    obtain ⟨rec, hrecmem, hper, hval⟩ :=
      seriesFor_emits (allEntries tp (maxPeriodsOf tp) (batchTickerData outcomes))
        (sortPeriods tp (dedupFirst (allPeriods tp (maxPeriodsOf tp) (batchTickerData outcomes))))
        compare m p t v hpmem ht hlkB
    refine ⟨seriesFor (allEntries tp (maxPeriodsOf tp) (batchTickerData outcomes))
        (sortPeriods tp (dedupFirst (allPeriods tp (maxPeriodsOf tp) (batchTickerData outcomes))))
        compare m, ?_, rec, hrecmem, hper, hval⟩
    unfold fetch_historical_data _extract_historical_data
    exact List.mem_map.mpr ⟨m, hm, rfl⟩

/-- C8 witness: in a two-ticker batch where the second ticker's fetch
raises, no series record mentions the failed ticker, and the healthy ticker
still gets its record at its latest quarter with its value. -/
theorem claim_C8_batch_isolation_witness :
    (∀ o, ("BAD", o) ∈
        [("AAA", FetchOutcome.res false [("Profitability", CTable.mk true witBRows)]),
         ("BAD", FetchOutcome.exc "boom")] → failedOutcome o = true) ∧
    (∀ m mdata, (m, mdata) ∈ fetch_historical_data "quarter" ["AAA", "BAD"] ["ROE (%)"]
        [("AAA", FetchOutcome.res false [("Profitability", CTable.mk true witBRows)]),
         ("BAD", FetchOutcome.exc "boom")] →
      ∀ rec ∈ mdata, ∀ v : Option ℚ, ("BAD", v) ∈ rec.vals → False) ∧
    tpmLookup ((tickerEntryList "quarter" (maxPeriodsOf "quarter")
        [("Profitability", CTable.mk true witBRows)]).map fun e => ("AAA", e))
      "AAA" "Q4 2024" "ROE (%)" = some 30 ∧
    (∃ mdata, (("ROE (%)"), mdata) ∈ fetch_historical_data "quarter" ["AAA", "BAD"] ["ROE (%)"]
        [("AAA", FetchOutcome.res false [("Profitability", CTable.mk true witBRows)]),
         ("BAD", FetchOutcome.exc "boom")] ∧
      ∃ rec ∈ mdata, rec.period = "Q4 2024" ∧ ("AAA", some (30 : ℚ)) ∈ rec.vals) := by
  have hfail : ∀ o, ("BAD", o) ∈
      [("AAA", FetchOutcome.res false [("Profitability", CTable.mk true witBRows)]),
       ("BAD", FetchOutcome.exc "boom")] → failedOutcome o = true := by
    intro o ho
    rcases List.mem_cons.mp ho with h | h
    · have h1 : ("BAD" : String) = "AAA" := congrArg Prod.fst h
      exact absurd h1 (by decide)
    · rcases List.mem_cons.mp h with h | h
      · have h2 : o = FetchOutcome.exc "boom" := congrArg Prod.snd h
        rw [h2]
        rfl
      · simp at h
  exact ⟨hfail,
    (claim_C8_batch_isolation "quarter" ["AAA", "BAD"] ["ROE (%)"]
      [("AAA", FetchOutcome.res false [("Profitability", CTable.mk true witBRows)]),
       ("BAD", FetchOutcome.exc "boom")] "BAD" hfail).1,
    by decide,
    (claim_C8_batch_isolation "quarter" ["AAA", "BAD"] ["ROE (%)"]
      [("AAA", FetchOutcome.res false [("Profitability", CTable.mk true witBRows)]),
       ("BAD", FetchOutcome.exc "boom")] "BAD" hfail).2
      "AAA" [("Profitability", CTable.mk true witBRows)] (by decide) (by decide) (by decide)
      "ROE (%)" (by decide) "Q4 2024" 30 (by decide)⟩
